import Mathlib

/-!
Package `customerservice`: a verification development.

Shallow embedding of `customer_service.go` (package `customerservice`) and
proofs about its three operations: `CheckSignature`, `SendMessage` and
`UploadTempMedia`.

Conventions of the embedding

* A Go `string` and a Go `[]byte` are both finite byte sequences: `Bytes`.
  `str "..."` is the byte sequence of a Go string literal (its UTF-8 text).
* `uint32` and `uint64` values are natural numbers reduced `% 2 ^ 32` and
  `% 2 ^ 64` wherever the Go operation can overflow.
* The functions of the Go standard library that `CheckSignature` calls
  (`sort.Strings`, `strings.Join`, `crypto/sha1`, `encoding/hex`) are embedded
  from their Go definitions, so that the whole function is executable.
* `SendMessage` and `UploadTempMedia` run in an environment `Env` that stands
  for what lies outside the package: the HTTP transport, the JSON scanner, the
  case folding of member names and the random source. What the package fixes
  (struct declarations and `json` tags, URLs, the multipart calls, the handling
  of the decoded response) is embedded in full. Each operation returns its Go
  result together with the list of calls to `http.Post` it made.
-/

namespace CustomerService

/-! ## Strings and bytes -/

/-- One Go `byte` (`uint8`). -/
abbrev Byte := Fin 256

/-- A Go `string` or `[]byte`: a finite sequence of bytes. -/
abbrev Bytes := List Byte

/-- UTF-8 encoding of one code point, as the Go compiler stores string literals. -/
def utf8Encode (c : Char) : Bytes :=
  let n := c.toNat
  if n < 0x80 then [Fin.ofNat n]
  else if n < 0x800 then [Fin.ofNat (0xC0 + n / 64), Fin.ofNat (0x80 + n % 64)]
  else if n < 0x10000 then
    [Fin.ofNat (0xE0 + n / 4096), Fin.ofNat (0x80 + n / 64 % 64), Fin.ofNat (0x80 + n % 64)]
  else
    [Fin.ofNat (0xF0 + n / 262144), Fin.ofNat (0x80 + n / 4096 % 64),
      Fin.ofNat (0x80 + n / 64 % 64), Fin.ofNat (0x80 + n % 64)]

/-- The bytes of a Go string literal. -/
def str (s : String) : Bytes := s.toList.flatMap utf8Encode

/-- Go's `x < y` on strings: byte-wise lexicographic comparison, a proper
initial segment being smaller. -/
def strLess : Bytes → Bytes → Bool
  | [], [] => false
  | [], _ :: _ => true
  | _ :: _, [] => false
  | x :: xs, y :: ys => if x < y then true else if y < x then false else strLess xs ys

/-! ## `sort.Strings`

`sort.Strings(x)` on a slice of fewer than 12 elements runs the insertion sort
of package `sort`:

    for i := a + 1; i < b; i++ {
        for j := i; j > a && less(data[j], data[j-1]); j-- {
            data.Swap(j, j-1)
        }
    }

The outer loop keeps `data[a:i]` sorted; the inner loop moves `data[i]` to the
left while it is strictly smaller than its left neighbour. -/

/-- The inner loop: `acc` is the already processed part `data[a:i]` read from
right to left (`data[i-1]` first); the result is `data[a:i+1]` read from right to
left after `x = data[i]` has been moved into place. -/
def insertBack (x : Bytes) : List Bytes → List Bytes
  | [] => [x]
  | y :: rest => if strLess x y then y :: insertBack x rest else x :: y :: rest

/-- The outer loop: `acc` is the processed part read from right to left, the
second argument is the part still to process. -/
def insertionSort : List Bytes → List Bytes → List Bytes
  | acc, [] => acc.reverse
  | acc, x :: xs => insertionSort (insertBack x acc) xs

/-- The call `sort.Strings(data)` for a short slice. -/
def sortStrings (data : List Bytes) : List Bytes := insertionSort [] data

/-- The call `strings.Join(elems, "")`: concatenation with the empty separator. -/
def stringsJoin : List Bytes → Bytes
  | [] => []
  | s :: rest => s ++ stringsJoin rest

/-! ## `crypto/sha1` -/

/-- The call `bits.RotateLeft32(x, k)` for `0 < k < 32`. -/
def rotl32 (x k : Nat) : Nat := ((x <<< k) % 2 ^ 32) ||| (x >>> (32 - k))

/-- Bitwise complement of a `uint32`. -/
def not32 (x : Nat) : Nat := x ^^^ 0xFFFFFFFF

/-- Addition of `uint32` values. -/
def add32 (x y : Nat) : Nat := (x + y) % 2 ^ 32

/-- The five chaining words `h[0..4]` of a SHA-1 digest state. -/
structure Digest where
  h0 : Nat
  h1 : Nat
  h2 : Nat
  h3 : Nat
  h4 : Nat
deriving DecidableEq, Repr

/-- The loop state of `blockGeneric`: the 16-word rolling window `w` and the
working variables `a, b, c, d, e`. -/
structure RoundState where
  w : List Nat
  a : Nat
  b : Nat
  c : Nat
  d : Nat
  e : Nat

/-- Big-endian `uint32` read from `p[j:j+4]`. -/
def beWord (p : Bytes) (j : Nat) : Nat :=
  ((p.getD j 0).val <<< 24) ||| ((p.getD (j + 1) 0).val <<< 16) |||
    ((p.getD (j + 2) 0).val <<< 8) ||| (p.getD (j + 3) 0).val

/-- Round `i` (`0 ≤ i < 80`) of `blockGeneric`: from round 16 on the window slot
`i & 0xf` is refreshed first; the round function and constant change every 20
rounds. -/
def round (st : RoundState) (i : Nat) : RoundState :=
  let w := if i < 16 then st.w else
    st.w.set (i % 16) (rotl32 (st.w.getD ((i - 3) % 16) 0 ^^^ st.w.getD ((i - 8) % 16) 0 ^^^
      st.w.getD ((i - 14) % 16) 0 ^^^ st.w.getD (i % 16) 0) 1)
  let f := if i < 20 then (st.b &&& st.c) ||| (not32 st.b &&& st.d)
    else if i < 40 then st.b ^^^ st.c ^^^ st.d
    else if i < 60 then ((st.b ||| st.c) &&& st.d) ||| (st.b &&& st.c)
    else st.b ^^^ st.c ^^^ st.d
  let k := if i < 20 then 0x5A827999 else if i < 40 then 0x6ED9EBA1
    else if i < 60 then 0x8F1BBCDC else 0xCA62C1D6
  let t := add32 (add32 (add32 (add32 (rotl32 st.a 5) f) st.e) (w.getD (i % 16) 0)) k
  { w := w, a := t, b := st.a, c := rotl32 st.b 30, d := st.c, e := st.d }

/-- One 64-byte chunk of `blockGeneric`. -/
def blockOne (dig : Digest) (p : Bytes) : Digest :=
  let w := (List.range 16).map (fun i => beWord p (i * 4))
  let st := (List.range 80).foldl round ⟨w, dig.h0, dig.h1, dig.h2, dig.h3, dig.h4⟩
  ⟨add32 dig.h0 st.a, add32 dig.h1 st.b, add32 dig.h2 st.c, add32 dig.h3 st.d, add32 dig.h4 st.e⟩

/-- The loop `for len(p) >= chunk` of `blockGeneric`; the first argument bounds
the number of iterations (`len(p)` is always enough). -/
def blockGeneric : Nat → Digest → Bytes → Digest
  | 0, dig, _ => dig
  | n + 1, dig, p => if 64 ≤ p.length then blockGeneric n (blockOne dig p) (p.drop 64) else dig

/-- Big-endian encoding of a `uint64` in 8 bytes. -/
def bePutUint64 (n : Nat) : Bytes :=
  (List.range 8).map (fun i => Fin.ofNat (n >>> (8 * (7 - i))))

/-- Big-endian encoding of a `uint32` in 4 bytes. -/
def bePutUint32 (n : Nat) : Bytes :=
  (List.range 4).map (fun i => Fin.ofNat (n >>> (8 * (3 - i))))

/-- The padding `checkSum` appends to a message of `len` bytes: `0x80`, zero
bytes up to 56 modulo 64, then the length in bits as a big-endian `uint64`. -/
def sha1Padding (len : Nat) : Bytes :=
  let t := if len % 64 < 56 then 56 - len % 64 else 64 + 56 - len % 64
  ((0x80 : Byte) :: List.replicate (t - 1) (0 : Byte)) ++ bePutUint64 ((len <<< 3) % 2 ^ 64)

/-- The initial chaining value set by `sha1.New()`. -/
def sha1Init : Digest := ⟨0x67452301, 0xEFCDAB89, 0x98BADCFE, 0x10325476, 0xC3D2E1F0⟩

/-- The calls `h := sha1.New(); h.Write(msg); h.Sum(nil)`: the 20-byte SHA-1 digest. -/
def sha1Sum (msg : Bytes) : Bytes :=
  let p := msg ++ sha1Padding msg.length
  let d := blockGeneric p.length sha1Init p
  bePutUint32 d.h0 ++ bePutUint32 d.h1 ++ bePutUint32 d.h2 ++ bePutUint32 d.h3 ++ bePutUint32 d.h4

/-! ## `encoding/hex` -/

/-- The digit table of `encoding/hex`. -/
def hextable : Bytes := str "0123456789abcdef"

/-- The function `hex.EncodeToString`: two digits per byte, high nibble first. -/
def hexEncodeToString : Bytes → Bytes
  | [] => []
  | v :: rest =>
    hextable.getD (v.val >>> 4) 0 :: hextable.getD (v.val &&& 0x0f) 0 :: hexEncodeToString rest

/-! ## `CheckSignature` -/

/-- The function `CheckSignature(accessToken, nonce, timestamp, signature)`. -/
def CheckSignature (accessToken nonce timestamp signature : Bytes) : Bool :=
  let qsArr := sortStrings [accessToken, nonce, timestamp]
  let qs := stringsJoin qsArr
  let cipherBuf := sha1Sum qs
  let cipherText := hexEncodeToString cipherBuf
  if cipherText = signature then true else false

/-! ## Specification vocabulary for `CheckSignature` -/

/-- Ascending byte-wise lexicographic order on strings, stated independently of
the code: `a` is not after `b`. -/
def lexLE (a b : Bytes) : Prop := ¬ List.Lex (· < ·) b a

/-- The lowercase hexadecimal SHA-1 digest of a message. -/
def sha1Hex (msg : Bytes) : Bytes := hexEncodeToString (sha1Sum msg)

/-- Number of positions at which two strings carry different characters,
counted over their common length. -/
def mismatches : Bytes → Bytes → Nat
  | x :: xs, y :: ys => (if x = y then 0 else 1) + mismatches xs ys
  | _, _ => 0

/-- The string `sig2` is `sig` with a single character changed: same length,
exactly one differing position. -/
def singleCharMutation (sig sig2 : Bytes) : Prop :=
  sig2.length = sig.length ∧ mismatches sig sig2 = 1

instance (sig sig2 : Bytes) : Decidable (singleCharMutation sig sig2) :=
  inferInstanceAs (Decidable (_ ∧ _))

/-- A character in `0-9` or `a-f`. -/
def isLowerHex (ch : Byte) : Prop := (48 ≤ ch.val ∧ ch.val ≤ 57) ∨ (97 ≤ ch.val ∧ ch.val ≤ 102)

/-- ASCII upper-casing of one character (`a-z` to `A-Z`). -/
def upperByte (ch : Byte) : Byte := if 97 ≤ ch.val ∧ ch.val ≤ 122 then Fin.ofNat (ch.val - 32) else ch

/-- The order `sort.Strings` sorts by: `a` is not greater than `b`. -/
def strLe (a b : Bytes) : Prop := strLess b a = false

/-! ## Errors and JSON documents

The HTTP transport, the JSON text scanner and the random source are outside
the package; they are parameters of the embedding (`Env`). What the package
itself fixes (the struct declarations and their `json` tags, the URLs, the
multipart calls, and the handling of the decoded response) is embedded in
full. -/

/-- A Go `error` value. -/
inductive GoError
  /-- The value `errors.New(s)`; its `Error()` text is `s`. -/
  | errorString (s : Bytes)
  /-- A `*json.UnmarshalTypeError`: a JSON value that does not fit the Go
  field with JSON name `field` (empty for the target struct itself). -/
  | unmarshalTypeError (field : Bytes)
  /-- Any other error produced by the standard library, with its text. -/
  | library (text : Bytes)
deriving DecidableEq

/-- The text `e.Error()` of an error built by `errors.New` or handed over by
the library; the text of a type error of `encoding/json` is not modelled. -/
def GoError.Error : GoError → Option Bytes
  | .errorString s => some s
  | .library text => some text
  | .unmarshalTypeError _ => none

/-- A JSON document as `encoding/json` sees it: object members in document
order, string values and member names unquoted. A number carries its integer
value when its literal has neither fraction nor exponent (the literals
`strconv.ParseInt` accepts), and nothing otherwise. -/
inductive JSON
  | null
  | bool (b : Bool)
  | number (int : Option Int)
  | string (s : Bytes)
  | array (items : List JSON)
  | object (members : List (Bytes × JSON))

/-- The names of the members of a JSON object, in order. -/
def JSON.keys : JSON → List Bytes
  | .object members => members.map (fun kv => kv.1)
  | _ => []

/-- Whether a JSON document is an object with a member called `name`. -/
def JSON.hasKey (doc : JSON) (name : Bytes) : Bool := doc.keys.contains name

/-! ## The data model -/

/-- Go struct `commonResp`. -/
structure commonResp where
  Errcode : Int
  Errmsg : Bytes
deriving DecidableEq

/-- Go struct `MessageImg`. -/
structure MessageImg where
  MediaID : Bytes
deriving DecidableEq

/-- Go struct `MessageText`. -/
structure MessageText where
  Content : Bytes
deriving DecidableEq

/-- Go struct `MessageLink`. -/
structure MessageLink where
  Description : Bytes
  ThumbURL : Bytes
  Title : Bytes
  URL : Bytes
deriving DecidableEq

/-- Go struct `MessageMiniProgramPage`. -/
structure MessageMiniProgramPage where
  Title : Bytes
  Pagepath : Bytes
  ThumbMediaID : Bytes
deriving DecidableEq

/-- Go struct `SendMessageReq`. -/
structure SendMessageReq where
  AccessToken : Bytes
  Image : MessageImg
  Link : MessageLink
  Miniprogrampage : MessageMiniProgramPage
  Msgtype : Bytes
  Text : MessageText
  Touser : Bytes
deriving DecidableEq

/-- Go struct `SendMessageResp`, which embeds `commonResp`. -/
structure SendMessageResp extends commonResp
deriving DecidableEq

/-- Go struct `UploadTempMediaReq`. -/
structure UploadTempMediaReq where
  AccessToken : Bytes
  Image : Bytes
deriving DecidableEq

/-- Go struct `UploadTempMediaResp`, which embeds `commonResp`; the Go field
`Type` is called `Type_` here. -/
structure UploadTempMediaResp extends commonResp where
  CreatedAt : Int
  MediaID : Bytes
  Type_ : Bytes
deriving DecidableEq

/-- The zero value of `SendMessageResp` (`var smr SendMessageResp`). -/
def SendMessageResp.zero : SendMessageResp := { Errcode := 0, Errmsg := [] }

/-- The zero value of `UploadTempMediaResp` (the named result `utmr`). -/
def UploadTempMediaResp.zero : UploadTempMediaResp :=
  { Errcode := 0, Errmsg := [], CreatedAt := 0, MediaID := [], Type_ := [] }

/-! ## `json.Marshal` of the request

`encoding/json` writes the fields of a struct in declaration order under the
names of their tags. With the option `omitempty` a field is left out when
`isEmptyValue` holds of it:

    func isEmptyValue(v reflect.Value) bool {
        switch v.Kind() {
        case reflect.Array, reflect.Map, reflect.Slice, reflect.String:
            return v.Len() == 0
        case reflect.Bool, reflect.Int, ..., reflect.Interface, reflect.Pointer:
            return v.IsZero()
        }
        return false
    }

A field of struct kind is therefore never left out. -/

/-- The size of the UTF-8 sequence at the head of a string as
`utf8.DecodeRuneInString` finds it, and 0 when the string is empty or does not
begin with a valid sequence (the decoder then returns `RuneError` with size 1
or 0). The first byte fixes the size and the range of the second byte; the
later bytes lie in `0x80..0xBF`. -/
def runeLength : Bytes → Nat
  | [] => 0
  | s0 :: rest =>
    let size :=
      if s0.val < 0x80 then 1 else if s0.val < 0xC2 then 0 else if s0.val < 0xE0 then 2
      else if s0.val < 0xF0 then 3 else if s0.val < 0xF5 then 4 else 0
    let lo := if s0.val = 0xE0 then 0xA0 else if s0.val = 0xF0 then 0x90 else 0x80
    let hi := if s0.val = 0xED then 0x9F else if s0.val = 0xF4 then 0x8F else 0xBF
    if size ≤ 1 then size
    else
      match rest with
      | [] => 0
      | s1 :: r2 =>
        if s1.val < lo ∨ hi < s1.val then 0
        else if size = 2 then 2
        else
          match r2 with
          | [] => 0
          | s2 :: r3 =>
            if s2.val < 0x80 ∨ 0xBF < s2.val then 0
            else if size = 3 then 3
            else
              match r3 with
              | [] => 0
              | s3 :: _ => if s3.val < 0x80 ∨ 0xBF < s3.val then 0 else 4

/-- The loop of the string encoder of `encoding/json` as it acts on the value
of a string: a byte that begins no valid UTF-8 sequence is written as U+FFFD
(bytes `EF BF BD`) and the scan goes on at the next byte; a valid sequence is
kept. The first argument counts the bytes still to copy of a sequence already
found valid. -/
def replaceInvalidUTF8 : Nat → Bytes → Bytes
  | _, [] => []
  | k + 1, c :: rest => c :: replaceInvalidUTF8 k rest
  | 0, c :: rest =>
    match runeLength (c :: rest) with
    | 0 => 0xEF :: 0xBF :: 0xBD :: replaceInvalidUTF8 0 rest
    | n + 1 => c :: replaceInvalidUTF8 n rest

/-- The string a JSON text written by `json.Marshal` denotes for the Go string
`v`: `v` with every invalid UTF-8 byte replaced by U+FFFD. The escapes the
encoder writes (quotes, control characters, `<`, `>`, `&`, U+2028, U+2029)
denote the characters themselves. -/
def jsonStringValue (v : Bytes) : Bytes := replaceInvalidUTF8 0 v

/-- A `string` field tagged `omitempty`: left out when its length is zero. -/
def omitemptyString (name : Bytes) (v : Bytes) : List (Bytes × JSON) :=
  if v.length = 0 then [] else [(name, JSON.string (jsonStringValue v))]

/-- A field of struct kind tagged `omitempty`: `isEmptyValue` is false of
every struct value, so the member is always written; `v` is the encoding of
the field. -/
def omitemptyStruct (name : Bytes) (v : JSON) : List (Bytes × JSON) :=
  [(name, v)]

/-- Encoding of a `MessageImg`. -/
def marshalMessageImg (m : MessageImg) : JSON :=
  .object (omitemptyString (str "media_id") m.MediaID)

/-- Encoding of a `MessageText`. -/
def marshalMessageText (m : MessageText) : JSON :=
  .object (omitemptyString (str "content") m.Content)

/-- Encoding of a `MessageLink`. -/
def marshalMessageLink (m : MessageLink) : JSON :=
  .object (omitemptyString (str "description") m.Description ++
    omitemptyString (str "thumb_url") m.ThumbURL ++
    omitemptyString (str "title") m.Title ++
    omitemptyString (str "url") m.URL)

/-- Encoding of a `MessageMiniProgramPage`. -/
def marshalMessageMiniProgramPage (m : MessageMiniProgramPage) : JSON :=
  .object (omitemptyString (str "title") m.Title ++
    omitemptyString (str "pagepath") m.Pagepath ++
    omitemptyString (str "thumb_media_id") m.ThumbMediaID)

/-- The document `json.Marshal(req)` writes for a `SendMessageReq`. Encoding a
struct of strings and structs of strings cannot fail, so the error result of
`json.Marshal` is always nil here. -/
def jsonMarshal (req : SendMessageReq) : JSON :=
  .object (omitemptyString (str "access_token") req.AccessToken ++
    omitemptyStruct (str "image") (marshalMessageImg req.Image) ++
    omitemptyStruct (str "link") (marshalMessageLink req.Link) ++
    omitemptyStruct (str "miniprogrampage") (marshalMessageMiniProgramPage req.Miniprogrampage) ++
    omitemptyString (str "msgtype") req.Msgtype ++
    omitemptyStruct (str "text") (marshalMessageText req.Text) ++
    omitemptyString (str "touser") req.Touser)

/-! ## The environment -/

/-- The body handed to `http.Post`: the JSON document written by
`json.Marshal` (its text rendering is the library's), or raw bytes. -/
inductive RequestBody
  | json (doc : JSON)
  | raw (data : Bytes)

/-- The three arguments of one call `http.Post(url, contentType, body)`. -/
structure HTTPRequest where
  url : Bytes
  contentType : Bytes
  body : RequestBody

/-- What lies outside the package. -/
structure Env where
  /-- The call `http.Post` followed by `io.ReadAll(resp.Body)`: the outer result
  is that of `http.Post`, the inner one that of `io.ReadAll`. -/
  httpPost : HTTPRequest → Except GoError (Except GoError Bytes)
  /-- The JSON scanner of `encoding/json`: the document a text denotes, or the
  syntax error. -/
  jsonParse : Bytes → Except GoError JSON
  /-- Case-insensitive equality of a member name and a field name, as
  `encoding/json` decides it when no field has exactly the member name. -/
  equalFold : Bytes → Bytes → Bool
  /-- The random bytes `multipart.NewWriter` reads from `crypto/rand` (30 of
  them) to make its boundary. -/
  randomBytes : Bytes

/-- The result of an operation together with the calls to `http.Post` it made,
in order. -/
structure Outcome (α : Type) where
  posted : List HTTPRequest
  result : α

/-! ## `json.Unmarshal` into the response structs -/

/-- One field of a target struct: its JSON name and how a JSON value is stored
into it. -/
structure Field (σ : Type) where
  name : Bytes
  store : σ → JSON → σ × Option GoError

/-- Storing a JSON value into an `int` or `int64` field (64 bits): `null`
leaves the field alone, an integer literal in range is stored, anything else
is a type error and leaves the field alone. -/
def storeInt (field : Bytes) (cur : Int) : JSON → Int × Option GoError
  | .null => (cur, none)
  | .number (some n) =>
    if -(2 : Int) ^ 63 ≤ n ∧ n < (2 : Int) ^ 63 then (n, none)
    else (cur, some (.unmarshalTypeError field))
  | _ => (cur, some (.unmarshalTypeError field))

/-- Storing a JSON value into a `string` field: `null` leaves the field alone,
a string is stored, anything else is a type error and leaves the field
alone. -/
def storeString (field : Bytes) (cur : Bytes) : JSON → Bytes × Option GoError
  | .null => (cur, none)
  | .string s => (s, none)
  | _ => (cur, some (.unmarshalTypeError field))

/-- The fields of `SendMessageResp`: those promoted from `commonResp`. -/
def sendMessageRespFields : List (Field SendMessageResp) :=
  [ { name := str "errcode",
      store := fun v x =>
        let r := storeInt (str "errcode") v.Errcode x
        ({ v with Errcode := r.1 }, r.2) },
    { name := str "errmsg",
      store := fun v x =>
        let r := storeString (str "errmsg") v.Errmsg x
        ({ v with Errmsg := r.1 }, r.2) } ]

/-- The fields of `UploadTempMediaResp`: its own, then those promoted from
`commonResp`. -/
def uploadTempMediaRespFields : List (Field UploadTempMediaResp) :=
  [ { name := str "created_at",
      store := fun v x =>
        let r := storeInt (str "created_at") v.CreatedAt x
        ({ v with CreatedAt := r.1 }, r.2) },
    { name := str "media_id",
      store := fun v x =>
        let r := storeString (str "media_id") v.MediaID x
        ({ v with MediaID := r.1 }, r.2) },
    { name := str "type",
      store := fun v x =>
        let r := storeString (str "type") v.Type_ x
        ({ v with Type_ := r.1 }, r.2) },
    { name := str "errcode",
      store := fun v x =>
        let r := storeInt (str "errcode") v.Errcode x
        ({ v with Errcode := r.1 }, r.2) },
    { name := str "errmsg",
      store := fun v x =>
        let r := storeString (str "errmsg") v.Errmsg x
        ({ v with Errmsg := r.1 }, r.2) } ]

/-- The field a member name selects: the field with exactly that name, else the
first field equal to it up to case. -/
def findField {σ : Type} (equalFold : Bytes → Bytes → Bool) (fields : List (Field σ))
    (key : Bytes) : Option (Field σ) :=
  match fields.find? (fun f => f.name = key) with
  | some f => some f
  | none => fields.find? (fun f => equalFold f.name key)

/-- Decoding the members of an object into a struct, in document order: a
member that selects no field is skipped; the first type error is kept while
decoding goes on. -/
def decodeMembers {σ : Type} (equalFold : Bytes → Bytes → Bool) (fields : List (Field σ)) :
    σ → Option GoError → List (Bytes × JSON) → σ × Option GoError
  | v, saved, [] => (v, saved)
  | v, saved, kv :: rest =>
    match findField equalFold fields kv.1 with
    | none => decodeMembers equalFold fields v saved rest
    | some f =>
      let r := f.store v kv.2
      decodeMembers equalFold fields r.1 (saved.orElse (fun _ => r.2)) rest

/-- The call `err = json.Unmarshal(data, &v)` for a struct `v`: returns the
updated `v` and `err`. A syntax error leaves `v` alone; `null` leaves `v` alone
without error; an object is decoded member by member; any other document is a
type error. -/
def jsonUnmarshal {σ : Type} (env : Env) (fields : List (Field σ)) (data : Bytes) (v : σ) :
    σ × Option GoError :=
  match env.jsonParse data with
  | .error e => (v, some e)
  | .ok .null => (v, none)
  | .ok (.object members) => decodeMembers env.equalFold fields v none members
  | .ok _ => (v, some (.unmarshalTypeError []))

/-! ## `SendMessage` -/

/-- The function `SendMessage(req)`: the error result (`none` is nil) and the
HTTP calls made. The error branch after `json.Marshal` is absent because
`jsonMarshal` cannot fail; `defer resp.Body.Close()` has no effect on the
result. -/
def SendMessage (env : Env) (req : SendMessageReq) : Outcome (Option GoError) :=
  -- url := fmt.Sprintf("...?access_token=%s", req.AccessToken): `%s` writes the string as it is
  let url := str "https://api.weixin.qq.com/cgi-bin/message/custom/send?access_token=" ++
    req.AccessToken
  -- buf, err := json.Marshal(req)
  let buf := jsonMarshal req
  -- resp, err := http.Post(url, "application/json", bytes.NewBuffer(buf))
  let call : HTTPRequest := { url := url, contentType := str "application/json", body := .json buf }
  match env.httpPost call with
  | .error err => ⟨[call], some err⟩
  -- body, err := io.ReadAll(resp.Body)
  | .ok (.error err) => ⟨[call], some err⟩
  | .ok (.ok body) =>
    -- var smr SendMessageResp; err = json.Unmarshal(body, &smr)
    let r := jsonUnmarshal env sendMessageRespFields body SendMessageResp.zero
    match r.2 with
    | some err => ⟨[call], some err⟩
    | none =>
      if r.1.Errcode = 0 then ⟨[call], none⟩
      else ⟨[call], some (.errorString r.1.Errmsg)⟩

/-! ## `mime/multipart` writer -/

/-- The boundary of a fresh `multipart.Writer`: `fmt.Sprintf("%x", buf[:])` of
the random bytes. -/
def randomBoundary (env : Env) : Bytes := hexEncodeToString env.randomBytes

/-- The function `escapeQuotes` of `mime/multipart`: a backslash before every backslash and
double quote. -/
def escapeQuotes : Bytes → Bytes
  | [] => []
  | c :: rest =>
    if c = 92 ∨ c = 34 then 92 :: c :: escapeQuotes rest else c :: escapeQuotes rest

/-- What `w.CreateFormFile(fieldname, filename)` writes for the first part of a
writer with the given boundary: the boundary line, the two header lines in
sorted key order, and the empty line. -/
def createFormFile (boundary fieldname filename : Bytes) : Bytes :=
  str "--" ++ boundary ++ str "\r\n" ++
  str "Content-Disposition: " ++
    (str "form-data; name=\"" ++ escapeQuotes fieldname ++ str "\"; filename=\"" ++
      escapeQuotes filename ++ str "\"") ++ str "\r\n" ++
  str "Content-Type: " ++ str "application/octet-stream" ++ str "\r\n" ++
  str "\r\n"

/-- What `w.Close()` writes: the closing boundary line. -/
def writerClose (boundary : Bytes) : Bytes :=
  str "\r\n--" ++ boundary ++ str "--\r\n"

/-- The call `w.FormDataContentType()`: the boundary is quoted when it contains one of
the characters ``()<>@,;:\"/[]?= ``. -/
def formDataContentType (boundary : Bytes) : Bytes :=
  if boundary.any (fun c => (str "()<>@,;:\\\"/[]?= ").contains c) then
    str "multipart/form-data; boundary=" ++ (str "\"" ++ boundary ++ str "\"")
  else str "multipart/form-data; boundary=" ++ boundary

/-! ## `UploadTempMedia` -/

/-- The function `UploadTempMedia(req)`: the named results `(utmr, err)` and the
HTTP calls made. Writes to a `bytes.Buffer` do not fail, so `CreateFormFile`
returns no error; `utmr` is the zero value until `json.Unmarshal` fills it. -/
def UploadTempMedia (env : Env) (req : UploadTempMediaReq) :
    Outcome (UploadTempMediaResp × Option GoError) :=
  -- url := fmt.Sprintf("...?access_token=%s&type=image", req.AccessToken)
  let url := str "https://api.weixin.qq.com/cgi-bin/media/upload?access_token=" ++
    req.AccessToken ++ str "&type=image"
  -- writer := multipart.NewWriter(buf)
  let boundary := randomBoundary env
  -- header, err := writer.CreateFormFile("media", "temp.png"); header.Write(req.Image);
  -- writer.Close()
  let buf := createFormFile boundary (str "media") (str "temp.png") ++ req.Image ++
    writerClose boundary
  -- resp, err := http.Post(url, writer.FormDataContentType(), buf)
  let call : HTTPRequest :=
    { url := url, contentType := formDataContentType boundary, body := .raw buf }
  match env.httpPost call with
  | .error err => ⟨[call], (UploadTempMediaResp.zero, some err)⟩
  -- body, err := io.ReadAll(resp.Body)
  | .ok (.error err) => ⟨[call], (UploadTempMediaResp.zero, some err)⟩
  | .ok (.ok body) =>
    -- err = json.Unmarshal(body, &utmr)
    let r := jsonUnmarshal env uploadTempMediaRespFields body UploadTempMediaResp.zero
    match r.2 with
    | some err => ⟨[call], (r.1, some err)⟩
    | none =>
      if r.1.Errcode = 0 then ⟨[call], (r.1, none)⟩
      else ⟨[call], (r.1, some (.errorString r.1.Errmsg))⟩

/-! ## Reading a `multipart/form-data` body

The receiving side is not part of the package. To state what the request of
`UploadTempMedia` carries, a body is read here the way RFC 2046 (section 5.1.1)
and RFC 7578 describe it: the boundary is taken from the `boundary` parameter of
the content type; the body is cut at every delimiter (CRLF, two hyphens, the
boundary); a part is its header lines, an empty line and its content; the
`Content-Disposition` header of a part names the form field and the file. -/

/-- Whether `p` is an initial segment of `s`. -/
def startsWith : Bytes → Bytes → Bool
  | [], _ => true
  | _ :: _, [] => false
  | a :: p, b :: s => if a = b then startsWith p s else false

/-- The text before and the text after the first occurrence of `d` in a
string, if `d` occurs. -/
def splitOnFirst (d : Bytes) : Bytes → Option (Bytes × Bytes)
  | [] => if d = [] then some ([], []) else none
  | c :: cs =>
    if startsWith d (c :: cs) then some ([], (c :: cs).drop d.length)
    else
      match splitOnFirst d cs with
      | some r => some (c :: r.1, r.2)
      | none => none

/-- The pieces of a string between the occurrences of `d`; the first argument
bounds the number of cuts. -/
def splitAll (d : Bytes) : Nat → Bytes → List Bytes
  | 0, s => [s]
  | n + 1, s =>
    match splitOnFirst d s with
    | none => [s]
    | some r => r.1 :: splitAll d n r.2

/-- The line break CRLF. -/
def crlf : Bytes := [13, 10]

/-- The delimiter of a multipart body: CRLF, two hyphens, the boundary. -/
def delimiter (boundary : Bytes) : Bytes := 13 :: 10 :: 45 :: 45 :: boundary

/-- A string without its leading spaces and tabs. -/
def trimLeft : Bytes → Bytes
  | [] => []
  | c :: rest => if c = 32 ∨ c = 9 then trimLeft rest else c :: rest

/-- A string without its leading and trailing spaces and tabs. -/
def trim (s : Bytes) : Bytes := (trimLeft (trimLeft s).reverse).reverse

/-- ASCII lower-casing of one character. -/
def lowerByte (ch : Byte) : Byte :=
  if 65 ≤ ch.val ∧ ch.val ≤ 90 then Fin.ofNat (ch.val + 32) else ch

/-- The contents of a quoted string whose opening quote has been read, and the
text after its closing quote; a backslash quotes the next character. -/
def readQuoted : Bytes → Option (Bytes × Bytes)
  | [] => none
  | c :: rest =>
    if c = 34 then some ([], rest)
    else if c = 92 then
      match rest with
      | [] => none
      | c2 :: rest2 =>
        match readQuoted rest2 with
        | some r => some (c2 :: r.1, r.2)
        | none => none
    else
      match readQuoted rest with
      | some r => some (c :: r.1, r.2)
      | none => none

/-- The parameters `; key=value` of a header value, keys in lower case; a
value is a quoted string or runs up to the next semicolon. The first argument
bounds the number of parameters. -/
def readParams : Nat → Bytes → Option (List (Bytes × Bytes))
  | 0, _ => none
  | n + 1, s =>
    match trimLeft s with
    | [] => some []
    | c :: rest =>
      if c = 59 then
        match splitOnFirst [61] (trimLeft rest) with
        | none => none
        | some kv =>
          match kv.2 with
          | [] => some [(kv.1.map lowerByte, [])]
          | q :: v =>
            if q = 34 then
              match readQuoted v with
              | none => none
              | some r =>
                (readParams n r.2).map (fun ps => (kv.1.map lowerByte, r.1) :: ps)
            else
              match splitOnFirst [59] (q :: v) with
              | none => some [(kv.1.map lowerByte, trim (q :: v))]
              | some r =>
                (readParams n (59 :: r.2)).map (fun ps => (kv.1.map lowerByte, trim r.1) :: ps)
      else none

/-- The value of a header as its leading word, in lower case, and its
parameters. -/
def readHeaderValue (value : Bytes) : Option (Bytes × List (Bytes × Bytes)) :=
  match splitOnFirst [59] value with
  | none => some ((trim value).map lowerByte, [])
  | some r =>
    match readParams value.length (59 :: r.2) with
    | none => none
    | some ps => some ((trim r.1).map lowerByte, ps)

/-- The value of the first parameter called `key`. -/
def lookupParam (key : Bytes) : List (Bytes × Bytes) → Option Bytes
  | [] => none
  | kv :: rest => if kv.1 = key then some kv.2 else lookupParam key rest

/-- One header line `Name: value` as its name in lower case and its value. -/
def readHeaderLine (line : Bytes) : Option (Bytes × Bytes) :=
  match splitOnFirst [58] line with
  | none => none
  | some r => some ((trim r.1).map lowerByte, trim r.2)

/-- The form field name and the file name that the header block of a part
declares in its `Content-Disposition: form-data` line. -/
def readDisposition (head : Bytes) : Option (Bytes × Option Bytes) :=
  let lines := (splitAll crlf head.length head).filterMap readHeaderLine
  match lookupParam (str "content-disposition") lines with
  | none => none
  | some value =>
    match readHeaderValue value with
    | none => none
    | some hv =>
      if hv.1 = str "form-data" then
        match lookupParam (str "name") hv.2 with
        | none => none
        | some name => some (name, lookupParam (str "filename") hv.2)
      else none

/-- One part of a form: field name, file name if any, content. -/
structure FormPart where
  name : Bytes
  filename : Option Bytes
  content : Bytes
deriving DecidableEq

/-- One part read from the text between two delimiters: optional padding and
the CRLF ending the delimiter line, the header lines, and after the first empty
line the content. -/
def readPart (seg : Bytes) : Option FormPart :=
  if startsWith crlf (trimLeft seg) then
    match splitOnFirst (crlf ++ crlf) (trimLeft seg) with
    | none => (readDisposition (trimLeft seg)).map (fun d => ⟨d.1, d.2, []⟩)
    | some r => (readDisposition r.1).map (fun d => ⟨d.1, d.2, r.2⟩)
  else none

/-- The texts between the delimiters, from the text after a first delimiter up
to the closing delimiter (a delimiter followed by two hyphens); the first
argument bounds the number of parts. -/
def splitParts (d : Bytes) : Nat → Bytes → Option (List Bytes)
  | 0, _ => none
  | n + 1, s =>
    if startsWith [45, 45] s then some []
    else
      match splitOnFirst d s with
      | none => none
      | some r => (splitParts d n r.2).map (fun segs => r.1 :: segs)

/-- All parts read, if each can be. -/
def readParts : List Bytes → Option (List FormPart)
  | [] => some []
  | seg :: rest =>
    match readPart seg, readParts rest with
    | some p, some ps => some (p :: ps)
    | _, _ => none

/-- The boundary a content type `multipart/form-data; boundary=...`
announces. -/
def announcedBoundary (contentType : Bytes) : Option Bytes :=
  match readHeaderValue contentType with
  | none => none
  | some hv =>
    if hv.1 = str "multipart/form-data" then lookupParam (str "boundary") hv.2 else none

/-- The parts of a request body read as `multipart/form-data` with the boundary
its content type announces. The first delimiter may open the body without a
CRLF before it. -/
def parseMultipartForm (contentType body : Bytes) : Option (List FormPart) :=
  match announcedBoundary contentType with
  | none => none
  | some b =>
    match splitOnFirst (delimiter b) (crlf ++ body) with
    | none => none
    | some r =>
      match splitParts (delimiter b) r.2.length r.2 with
      | none => none
      | some segs => readParts segs

/-- An environment with the given random bytes whose transport answers every
request with the given body and whose JSON scanner knows the given table of
texts. -/
def Env.fixed (random : Bytes) (answer : Bytes) (table : List (Bytes × JSON)) : Env :=
  { httpPost := fun _ => .ok (.ok answer),
    jsonParse := fun data =>
      match table.find? (fun e => e.1 = data) with
      | some e => .ok e.2
      | none => .error (.library (str "invalid character")),
    equalFold := fun a b => a.map lowerByte = b.map lowerByte,
    randomBytes := random }

/-- The first header line `CreateFormFile("media", "temp.png")` writes. -/
def dispositionLine : Bytes :=
  str "Content-Disposition: form-data; name=\"media\"; filename=\"temp.png\""

/-- The second header line `CreateFormFile` writes. -/
def typeLine : Bytes := str "Content-Type: application/octet-stream"

instance : DecidablePred isLowerHex := fun ch =>
  inferInstanceAs (Decidable ((48 ≤ ch.val ∧ ch.val ≤ 57) ∨ (97 ≤ ch.val ∧ ch.val ≤ 102)))

/-- The text between the opening delimiter of the body of `UploadTempMedia` and
its closing delimiter: the CRLF ending the delimiter line, the two header
lines, the empty line, the image. -/
def partText (img : Bytes) : Bytes :=
  13 :: 10 :: (dispositionLine ++ (13 :: 10 :: (typeLine ++ (13 :: 10 :: (13 :: 10 :: img)))))

/-! ## Vocabulary for the claims about the two HTTP operations -/

/-- Whether a member name selects the field with JSON name `name` of a target
struct. -/
def selects {σ : Type} (equalFold : Bytes → Bytes → Bool) (fields : List (Field σ))
    (key name : Bytes) : Bool :=
  match findField equalFold fields key with
  | some f => decide (f.name = name)
  | none => false

/-- The call to `http.Post` expected of `SendMessage`: the URL with the access
token appended, the content type `application/json`, the encoded request. -/
def sendMessageRequest (req : SendMessageReq) : HTTPRequest :=
  { url := str "https://api.weixin.qq.com/cgi-bin/message/custom/send?access_token=" ++
      req.AccessToken,
    contentType := str "application/json",
    body := .json (jsonMarshal req) }

/-- The multipart body expected of `UploadTempMedia`: what `CreateFormFile`
writes, the image, what `Close` writes. -/
def uploadTempMediaBody (env : Env) (req : UploadTempMediaReq) : Bytes :=
  createFormFile (randomBoundary env) (str "media") (str "temp.png") ++ req.Image ++
    writerClose (randomBoundary env)

/-- The call to `http.Post` expected of `UploadTempMedia`. -/
def uploadTempMediaRequest (env : Env) (req : UploadTempMediaReq) : HTTPRequest :=
  { url := str "https://api.weixin.qq.com/cgi-bin/media/upload?access_token=" ++
      req.AccessToken ++ str "&type=image",
    contentType := formDataContentType (randomBoundary env),
    body := .raw (uploadTempMediaBody env req) }

/-- The member names of a request body that is a JSON object. -/
def RequestBody.keys : RequestBody → List Bytes
  | .json doc => doc.keys
  | .raw _ => []

/-- A text message: `SendMessageReq{AccessToken: "t", Msgtype: "text",
Text: MessageText{Content: "hi"}, Touser: "u"}`. -/
def textMessage : SendMessageReq :=
  { AccessToken := str "t", Image := ⟨[]⟩, Link := ⟨[], [], [], []⟩,
    Miniprogrampage := ⟨[], [], []⟩, Msgtype := str "text", Text := ⟨str "hi"⟩,
    Touser := str "u" }

/-- An environment whose endpoint answers `{"errcode":0}`. -/
def envSuccess : Env :=
  Env.fixed [] (str "\x7b\"errcode\":0\x7d")
    [(str "\x7b\"errcode\":0\x7d", .object [(str "errcode", .number (some 0))])]

/-- An environment whose endpoint answers
`{"errcode":40001,"errmsg":"invalid credential"}`. -/
def envInvalidCredential : Env :=
  Env.fixed [] (str "\x7b\"errcode\":40001,\"errmsg\":\"invalid credential\"\x7d")
    [(str "\x7b\"errcode\":40001,\"errmsg\":\"invalid credential\"\x7d",
      .object [(str "errcode", .number (some 40001)),
        (str "errmsg", .string (str "invalid credential"))])]

/-- An environment whose endpoint answers
`{"media_id":"abc123","type":"image","created_at":1234567890}`. -/
def envUploaded : Env :=
  Env.fixed (List.replicate 30 0)
    (str "\x7b\"media_id\":\"abc123\",\"type\":\"image\",\"created_at\":1234567890\x7d")
    [(str "\x7b\"media_id\":\"abc123\",\"type\":\"image\",\"created_at\":1234567890\x7d",
      .object [(str "media_id", .string (str "abc123")), (str "type", .string (str "image")),
        (str "created_at", .number (some 1234567890))])]

/-- An environment whose endpoint answers
`{"errcode":40004,"errmsg":"invalid media type"}`. -/
def envInvalidMedia : Env :=
  Env.fixed (List.replicate 30 0)
    (str "\x7b\"errcode\":40004,\"errmsg\":\"invalid media type\"\x7d")
    [(str "\x7b\"errcode\":40004,\"errmsg\":\"invalid media type\"\x7d",
      .object [(str "errcode", .number (some 40004)),
        (str "errmsg", .string (str "invalid media type"))])]

/-- An environment whose random source yields thirty zero bytes, so that the
boundary is sixty characters `0`. -/
def envZeroBoundary : Env := Env.fixed (List.replicate 30 0) [] []

/-- An image that contains the delimiter of `envZeroBoundary`: CRLF, two
hyphens, sixty `0`, two hyphens, CRLF. -/
def imageWithDelimiter : Bytes :=
  str "\r\n--000000000000000000000000000000000000000000000000000000000000--\r\n"

/-! ## Go's string order is the lexicographic order -/

theorem strLess_iff_lex (a b : Bytes) : strLess a b = true ↔ List.Lex (· < ·) a b := by
  induction a generalizing b with
  | nil =>
    cases b with
    | nil => simp [strLess, List.Lex.not_nil_right]
    | cons y ys => simp [strLess, List.Lex.nil]
  | cons x xs ih =>
    cases b with
    | nil => simp [strLess, List.Lex.not_nil_right]
    | cons y ys =>
      by_cases h1 : x < y
      · simp [strLess, h1, List.Lex.rel h1]
      · by_cases h2 : y < x
        · simp only [strLess, h1, h2, if_false, if_true]
          constructor
          · intro h; cases h
          · intro h
            cases h with
            | cons h => exact absurd h2 (lt_irrefl _)
            | rel h => exact absurd h h1
        · have hxy : x = y := le_antisymm (not_lt.mp h2) (not_lt.mp h1)
          subst hxy
          simp only [strLess, h1, if_false]
          rw [ih, List.Lex.cons_iff]

theorem strLess_irrefl (a : Bytes) : strLess a a = false := by
  induction a with
  | nil => rfl
  | cons x xs ih => simp [strLess, ih]

theorem strLess_asymm (a b : Bytes) (h : strLess a b = true) : strLess b a = false := by
  induction a generalizing b with
  | nil => cases b <;> simp_all [strLess]
  | cons x xs ih =>
    cases b with
    | nil => simp_all [strLess]
    | cons y ys =>
      by_cases h1 : x < y
      · have h2 : ¬ y < x := not_lt.mpr (le_of_lt h1)
        simp [strLess, h1, h2]
      · by_cases h2 : y < x
        · simp [strLess, h1, h2] at h
        · simp only [strLess, h1, h2, if_false] at h ⊢
          exact ih ys h

theorem strLess_trichotomy (a b : Bytes) (h1 : strLess a b = false) (h2 : strLess b a = false) :
    a = b := by
  induction a generalizing b with
  | nil => cases b <;> simp_all [strLess]
  | cons x xs ih =>
    cases b with
    | nil => simp_all [strLess]
    | cons y ys =>
      by_cases hxy : x < y
      · simp [strLess, hxy] at h1
      · by_cases hyx : y < x
        · simp [strLess, hyx] at h2
        · have e : x = y := le_antisymm (not_lt.mp hyx) (not_lt.mp hxy)
          subst e
          simp only [strLess, hxy, if_false] at h1 h2
          rw [ih ys h1 h2]

theorem strLess_trans (a b c : Bytes) (h1 : strLess a b = true) (h2 : strLess b c = true) :
    strLess a c = true := by
  induction a generalizing b c with
  | nil =>
    cases b with
    | nil => simp [strLess] at h1
    | cons y ys =>
      cases c with
      | nil => simp [strLess] at h2
      | cons z zs => simp [strLess]
  | cons x xs ih =>
    cases b with
    | nil => simp [strLess] at h1
    | cons y ys =>
      cases c with
      | nil => simp [strLess] at h2
      | cons z zs =>
        by_cases hxy : x < y
        · by_cases hyz : y < z
          · simp [strLess, lt_trans hxy hyz]
          · by_cases hzy : z < y
            · simp [strLess, hyz, hzy] at h2
            · have e : y = z := le_antisymm (not_lt.mp hzy) (not_lt.mp hyz)
              subst e
              simp [strLess, hxy]
        · by_cases hyx : y < x
          · simp [strLess, hxy, hyx] at h1
          · have e : x = y := le_antisymm (not_lt.mp hyx) (not_lt.mp hxy)
            subst e
            by_cases hxz : x < z
            · simp [strLess, hxz]
            · by_cases hzx : z < x
              · simp [strLess, hxz, hzx] at h2
              · simp only [strLess, hxy, hxz, hzx, if_false] at h1 h2 ⊢
                exact ih ys zs h1 h2

theorem strLe_iff_lexLE (a b : Bytes) : strLe a b ↔ lexLE a b := by
  unfold strLe lexLE
  rw [← strLess_iff_lex]
  simp

theorem strLe_total (a b : Bytes) : strLe a b ∨ strLe b a := by
  unfold strLe
  cases h : strLess b a with
  | false => exact Or.inl rfl
  | true => exact Or.inr (strLess_asymm b a h)

theorem strLe_trans (a b c : Bytes) (h1 : strLe a b) (h2 : strLe b c) : strLe a c := by
  unfold strLe at *
  cases h : strLess c a with
  | false => rfl
  | true =>
    -- c < a and not b < a, so c < b, contradicting h2
    cases hba : strLess c b with
    | true => rw [hba] at h2; cases h2
    | false =>
      cases hbc : strLess b c with
      | true => have := strLess_trans b c a hbc h; rw [this] at h1; cases h1
      | false =>
        have e := strLess_trichotomy c b hba hbc
        subst e
        rw [h] at h1; cases h1

instance : IsAntisymm Bytes strLe := ⟨fun a b h1 h2 => strLess_trichotomy a b h2 h1⟩

instance : IsAntisymm Bytes lexLE :=
  ⟨fun a b h1 h2 => strLess_trichotomy a b ((strLe_iff_lexLE b a).mpr h2)
    ((strLe_iff_lexLE a b).mpr h1)⟩

/-! ## `sort.Strings` sorts -/

theorem insertBack_perm (x : Bytes) (acc : List Bytes) : (insertBack x acc).Perm (x :: acc) := by
  induction acc with
  | nil => exact List.Perm.refl _
  | cons y rest ih =>
    unfold insertBack
    split
    · exact (List.Perm.cons y ih).trans (List.Perm.swap x y rest)
    · exact List.Perm.refl _

theorem insertBack_sorted (x : Bytes) (acc : List Bytes)
    (h : acc.Sorted (fun p q => strLe q p)) :
    (insertBack x acc).Sorted (fun p q => strLe q p) := by
  induction acc with
  | nil => simp [insertBack]
  | cons y rest ih =>
    have hy := List.sorted_cons.mp h
    unfold insertBack
    split
    · rename_i hlt
      refine List.sorted_cons.mpr ⟨?_, ih hy.2⟩
      intro b hb
      rcases List.mem_cons.mp ((insertBack_perm x rest).subset hb) with e | hmem
      · subst e
        exact strLess_asymm _ _ hlt
      · exact hy.1 b hmem
    · rename_i hge
      have hyx : strLe y x := by
        unfold strLe
        simpa using hge
      refine List.sorted_cons.mpr ⟨?_, h⟩
      intro b hb
      rcases List.mem_cons.mp hb with e | hmem
      · subst e
        exact hyx
      · exact strLe_trans _ _ _ (hy.1 b hmem) hyx

theorem insertionSort_perm (acc rest : List Bytes) :
    (insertionSort acc rest).Perm (acc ++ rest) := by
  induction rest generalizing acc with
  | nil => simp [insertionSort]
  | cons x xs ih =>
    unfold insertionSort
    refine (ih (insertBack x acc)).trans ?_
    refine ((insertBack_perm x acc).append_right xs).trans ?_
    exact List.perm_middle.symm

theorem insertionSort_sorted (acc rest : List Bytes)
    (h : acc.Sorted (fun p q => strLe q p)) : (insertionSort acc rest).Sorted strLe := by
  induction rest generalizing acc with
  | nil =>
    unfold insertionSort
    exact List.pairwise_reverse.mpr h
  | cons x xs ih =>
    unfold insertionSort
    exact ih _ (insertBack_sorted x acc h)

theorem sortStrings_perm (data : List Bytes) : (sortStrings data).Perm data := by
  simpa [sortStrings] using insertionSort_perm [] data

theorem sortStrings_sorted (data : List Bytes) : (sortStrings data).Sorted strLe :=
  insertionSort_sorted [] data List.sorted_nil

theorem sorted_lexLE_iff (l : List Bytes) : l.Sorted lexLE ↔ l.Sorted strLe := by
  unfold List.Sorted
  constructor
  · intro h
    exact h.imp (fun {a b} hab => (strLe_iff_lexLE a b).mpr hab)
  · intro h
    exact h.imp (fun {a b} hab => (strLe_iff_lexLE a b).mp hab)

/-- The sorted arrangement of a list of strings is unique, and it is what
`sort.Strings` computes. -/
theorem sortStrings_unique (data l : List Bytes) (hperm : l.Perm data)
    (hsorted : l.Sorted lexLE) : sortStrings data = l :=
  List.eq_of_perm_of_sorted ((sortStrings_perm data).trans hperm.symm)
    (sortStrings_sorted data) ((sorted_lexLE_iff l).mp hsorted)

theorem sortStrings_congr (l1 l2 : List Bytes) (h : l1.Perm l2) :
    sortStrings l1 = sortStrings l2 :=
  List.eq_of_perm_of_sorted (((sortStrings_perm l1).trans h).trans (sortStrings_perm l2).symm)
    (sortStrings_sorted l1) (sortStrings_sorted l2)

/-! ## Shape of the digest text -/

theorem bePutUint32_length (n : Nat) : (bePutUint32 n).length = 4 := by
  simp [bePutUint32]

theorem sha1Sum_length (msg : Bytes) : (sha1Sum msg).length = 20 := by
  simp [sha1Sum, bePutUint32_length]

theorem hexEncodeToString_length (b : Bytes) : (hexEncodeToString b).length = 2 * b.length := by
  induction b with
  | nil => rfl
  | cons v rest ih => simp [hexEncodeToString, ih]; omega

theorem hextable_lowerHex (n : Nat) (h : n < 16) : isLowerHex (hextable.getD n 0) := by
  interval_cases n <;> (unfold isLowerHex; decide)

theorem hexEncodeToString_lowerHex (b : Bytes) : ∀ ch ∈ hexEncodeToString b, isLowerHex ch := by
  induction b with
  | nil => intro ch h; cases h
  | cons v rest ih =>
    intro ch h
    simp only [hexEncodeToString, List.mem_cons] at h
    rcases h with e | e | hmem
    · subst e
      apply hextable_lowerHex
      rw [Nat.shiftRight_eq_div_pow]
      have := v.isLt
      omega
    · subst e
      apply hextable_lowerHex
      exact Nat.and_lt_two_pow _ (by norm_num : (15 : Nat) < 2 ^ 4)
    · exact ih ch hmem

theorem sha1Hex_length (msg : Bytes) : (sha1Hex msg).length = 40 := by
  simp [sha1Hex, hexEncodeToString_length, sha1Sum_length]

/-- Known-answer vectors of SHA-1 (FIPS 180): the empty message, `abc`, and the
two-block message of 56 characters. -/
theorem sha1Hex_known_answers :
    sha1Hex (str "") = str "da39a3ee5e6b4b0d3255bfef95601890afd80709" ∧
    sha1Hex (str "abc") = str "a9993e364706816aba3e25717850c26c9cd0d89d" ∧
    sha1Hex (str "abcdbcdecdefdefgefghfghighijhijkijkljklmklmnlmnomnopnopq") =
      str "84983e441c3bd26ebaae4aa1f95129e5e54670f1" := by
  refine ⟨?_, ?_, ?_⟩ <;> decide!

theorem CheckSignature_eq (accessToken nonce timestamp signature : Bytes) :
    CheckSignature accessToken nonce timestamp signature =
      decide (sha1Hex (stringsJoin (sortStrings [accessToken, nonce, timestamp])) = signature) := by
  unfold CheckSignature sha1Hex
  by_cases h : hexEncodeToString (sha1Sum (stringsJoin (sortStrings [accessToken, nonce, timestamp])))
      = signature <;> simp [h]

theorem mismatches_self (sig : Bytes) : mismatches sig sig = 0 := by
  induction sig with
  | nil => rfl
  | cons x xs ih => simp [mismatches, ih]

theorem lexLE_trans (a b c : Bytes) (h1 : lexLE a b) (h2 : lexLE b c) : lexLE a c :=
  (strLe_iff_lexLE a c).mp
    (strLe_trans a b c ((strLe_iff_lexLE a b).mpr h1) ((strLe_iff_lexLE b c).mpr h2))

theorem lexLE_of_not_less (a b : Bytes) (h : strLess b a = false) : lexLE a b :=
  (strLe_iff_lexLE a b).mp h

theorem sorted_three (s0 s1 s2 : Bytes) (h01 : lexLE s0 s1) (h12 : lexLE s1 s2) :
    [s0, s1, s2].Sorted lexLE := by
  have h02 := lexLE_trans s0 s1 s2 h01 h12
  simp [List.Sorted, h01, h12, h02]

theorem stringsJoin_three (s0 s1 s2 : Bytes) : stringsJoin [s0, s1, s2] = s0 ++ s1 ++ s2 := by
  simp [stringsJoin]

/-! ## Searching for a delimiter -/

theorem startsWith_append_self (p r : Bytes) : startsWith p (p ++ r) = true := by
  induction p with
  | nil => simp [startsWith]
  | cons a p ih => simp [startsWith, ih]

theorem startsWith_eq (p s : Bytes) (h : startsWith p s = true) : s = p ++ s.drop p.length := by
  induction p generalizing s with
  | nil => simp
  | cons a p ih =>
    cases s with
    | nil => simp [startsWith] at h
    | cons b s =>
      by_cases hab : a = b
      · subst hab
        simp only [startsWith, if_true] at h
        simpa using ih s h
      · simp [startsWith, hab] at h

theorem splitOnFirst_self (p r : Bytes) (hp : p ≠ []) : splitOnFirst p (p ++ r) = some ([], r) := by
  cases p with
  | nil => exact absurd rfl hp
  | cons a p =>
    have h := startsWith_append_self (a :: p) r
    rw [List.cons_append] at h ⊢
    unfold splitOnFirst
    rw [if_pos h]
    simp

theorem splitOnFirst_cons (p : Bytes) (c : Byte) (s a r : Bytes)
    (h : startsWith p (c :: s) = false) (hs : splitOnFirst p s = some (a, r)) :
    splitOnFirst p (c :: s) = some (c :: a, r) := by
  unfold splitOnFirst
  simp [h, hs]

theorem splitOnFirst_skip (q A s a r : Bytes) (hA : (13 : Byte) ∉ A)
    (hs : splitOnFirst (13 :: q) s = some (a, r)) :
    splitOnFirst (13 :: q) (A ++ s) = some (A ++ a, r) := by
  induction A with
  | nil => simpa using hs
  | cons c A ih =>
    have hc : (13 : Byte) ≠ c := fun e => hA (by simp [e])
    have hA2 : (13 : Byte) ∉ A := fun e => hA (List.mem_cons_of_mem _ e)
    rw [List.cons_append, List.cons_append]
    exact splitOnFirst_cons _ _ _ _ _ (by simp [startsWith, hc]) (ih hA2)

theorem startsWith_cons_false (y : Byte) (p s : Bytes) (h : startsWith [y] s = false) :
    startsWith (y :: p) s = false := by
  cases s with
  | nil => rfl
  | cons b s =>
    by_cases hyb : y = b
    · simp [startsWith, hyb] at h
    · simp [startsWith, hyb]

theorem splitOnFirst_skip_crlf (y : Byte) (p s a r : Bytes) (hy : startsWith [y] s = false)
    (hs : splitOnFirst (13 :: 10 :: y :: p) s = some (a, r)) :
    splitOnFirst (13 :: 10 :: y :: p) (13 :: 10 :: s) = some (13 :: 10 :: a, r) := by
  apply splitOnFirst_cons
  · simp [startsWith, startsWith_cons_false y p s hy]
  · apply splitOnFirst_cons
    · simp [startsWith]
    · exact hs

theorem startsWith_append_false (p A r : Bytes) (h : startsWith p A = false)
    (hl : p.length ≤ A.length) : startsWith p (A ++ r) = false := by
  induction p generalizing A with
  | nil => simp [startsWith] at h
  | cons a p ih =>
    cases A with
    | nil => simp at hl
    | cons b A =>
      by_cases hab : a = b
      · subst hab
        simp only [startsWith, if_true, List.cons_append] at h ⊢
        exact ih A h (by simpa using hl)
      · simp [startsWith, hab]

theorem startsWith_overlap (p y z : Bytes) (h1 : startsWith p y = false)
    (h2 : startsWith p (y ++ z) = true) :
    ∃ p1 p2, p = p1 ++ p2 ∧ p1.length = y.length ∧ p2 ≠ [] ∧ startsWith p2 z = true := by
  induction y generalizing p with
  | nil =>
    cases p with
    | nil => simp [startsWith] at h1
    | cons a p => exact ⟨[], a :: p, rfl, rfl, by simp, by simpa using h2⟩
  | cons c ys ih =>
    cases p with
    | nil => simp [startsWith] at h1
    | cons a p =>
      by_cases hac : a = c
      · subst hac
        simp only [startsWith, if_true, List.cons_append] at h1 h2
        obtain ⟨p1, p2, e, hl, hne, hs⟩ := ih p h1 h2
        exact ⟨a :: p1, p2, by simp [e], by simp [hl], hne, hs⟩
      · simp [startsWith, hac] at h2

theorem splitOnFirst_none_cons (d : Bytes) (c : Byte) (xs : Bytes)
    (h : splitOnFirst d (c :: xs) = none) :
    startsWith d (c :: xs) = false ∧ splitOnFirst d xs = none := by
  unfold splitOnFirst at h
  by_cases hs : startsWith d (c :: xs) = true
  · simp [hs] at h
  · simp only [hs] at h
    refine ⟨by simpa using hs, ?_⟩
    cases hx : splitOnFirst d xs with
    | none => rfl
    | some r => simp [hx] at h

/-- When the first character of a delimiter does not occur again in it, an
occurrence of the delimiter right after a text free of it is the first one. -/
theorem splitOnFirst_first (c0 : Byte) (dt : Bytes) (hc : c0 ∉ dt) (x r : Bytes)
    (h : splitOnFirst (c0 :: dt) x = none) :
    splitOnFirst (c0 :: dt) (x ++ (c0 :: dt) ++ r) = some (x, r) := by
  induction x with
  | nil => simpa using splitOnFirst_self (c0 :: dt) r (by simp)
  | cons c xs ih =>
    obtain ⟨h1, h2⟩ := splitOnFirst_none_cons _ _ _ h
    have hstart : startsWith (c0 :: dt) (c :: xs ++ ((c0 :: dt) ++ r)) = false := by
      cases hst : startsWith (c0 :: dt) (c :: xs ++ ((c0 :: dt) ++ r)) with
      | false => rfl
      | true =>
        exfalso
        obtain ⟨p1, p2, e, hl, hne, hs⟩ := startsWith_overlap _ _ _ h1 hst
        cases p1 with
        | nil => simp at hl
        | cons e1 p1 =>
          cases p2 with
          | nil => exact hne rfl
          | cons e2 p2 =>
            have he2 : e2 = c0 := by
              by_cases hh : e2 = c0
              · exact hh
              · simp [startsWith, hh] at hs
            rw [List.cons_append] at e
            have hdt : dt = p1 ++ e2 :: p2 := (List.cons.inj e).2
            apply hc
            rw [hdt, he2]
            simp
    have := splitOnFirst_cons _ c _ _ _ (by simpa using hstart) (ih h2)
    simpa using this

theorem splitOnFirst_cons_pos (d : Bytes) (c : Byte) (cs : Bytes)
    (h : startsWith d (c :: cs) = true) :
    splitOnFirst d (c :: cs) = some ([], (c :: cs).drop d.length) := by
  rw [splitOnFirst, if_pos h]

theorem splitOnFirst_cons_neg (d : Bytes) (c : Byte) (cs : Bytes)
    (h : startsWith d (c :: cs) = false) :
    splitOnFirst d (c :: cs) = (splitOnFirst d cs).map (fun r => (c :: r.1, r.2)) := by
  rw [splitOnFirst, if_neg (by simp [h])]
  cases splitOnFirst d cs <;> rfl

theorem splitOnFirst_sound (d s a r : Bytes) (h : splitOnFirst d s = some (a, r)) :
    s = a ++ d ++ r := by
  induction s generalizing a with
  | nil =>
    unfold splitOnFirst at h
    by_cases hd : d = []
    · simp [hd] at h
      simp [h.1, h.2, hd]
    · simp [hd] at h
  | cons c cs ih =>
    cases hs : startsWith d (c :: cs) with
    | true =>
      rw [splitOnFirst_cons_pos d c cs hs] at h
      simp only [Option.some.injEq, Prod.mk.injEq] at h
      have := startsWith_eq _ _ hs
      rw [← h.1, ← h.2]
      simpa using this
    | false =>
      rw [splitOnFirst_cons_neg d c cs hs] at h
      cases hx : splitOnFirst d cs with
      | none => simp [hx] at h
      | some q =>
        simp only [hx, Option.map_some', Option.some.injEq, Prod.mk.injEq] at h
        have := ih q.1 (by rw [hx, ← h.2])
        rw [← h.1]
        simp [this]

theorem splitOnFirst_complete (d a r : Bytes) : splitOnFirst d (a ++ d ++ r) ≠ none := by
  induction a with
  | nil =>
    cases d with
    | nil => cases r <;> simp [splitOnFirst, startsWith]
    | cons c d =>
      have := splitOnFirst_self (c :: d) r (by simp)
      rw [List.nil_append, this]
      simp
  | cons c a ih =>
    rw [List.cons_append, List.cons_append]
    cases hs : startsWith d (c :: (a ++ d ++ r)) with
    | true =>
      rw [splitOnFirst_cons_pos d c _ hs]
      simp
    | false =>
      rw [splitOnFirst_cons_neg d c _ hs]
      cases hx : splitOnFirst d (a ++ d ++ r) with
      | none => exact absurd hx ih
      | some q => simp

/-- The search finds nothing exactly when the delimiter does not occur. -/
theorem splitOnFirst_eq_none_iff (d s : Bytes) : splitOnFirst d s = none ↔ ¬ d <:+: s := by
  constructor
  · rintro h ⟨a, r, e⟩
    exact splitOnFirst_complete d a r (e ▸ h)
  · intro h
    cases hx : splitOnFirst d s with
    | none => rfl
    | some q =>
      exact absurd ⟨q.1, q.2, (splitOnFirst_sound d s q.1 q.2 (by rw [hx])).symm⟩ h

/-! ## The body `UploadTempMedia` builds, read back -/

theorem randomBoundary_lowerHex (env : Env) : ∀ ch ∈ randomBoundary env, isLowerHex ch :=
  hexEncodeToString_lowerHex env.randomBytes

theorem lowerHex_plain : ∀ ch : Byte, isLowerHex ch →
    (str "()<>@,;:\\\"/[]?= ").contains ch = false ∧ ch ≠ 13 ∧ ch ≠ 10 ∧ ch ≠ 45 ∧ ch ≠ 34 ∧
      ch ≠ 59 ∧ ch ≠ 32 ∧ ch ≠ 9 := by
  decide!

theorem formDataContentType_hex (b : Bytes) (hb : ∀ ch ∈ b, isLowerHex ch) :
    formDataContentType b = str "multipart/form-data" ++ [59] ++ (str " boundary" ++ [61] ++ b) := by
  have hany : b.any (fun c => (str "()<>@,;:\\\"/[]?= ").contains c) = false := by
    rw [List.any_eq_false]
    intro c hc
    rw [(lowerHex_plain c (hb c hc)).1]
    simp
  unfold formDataContentType
  rw [hany, if_neg (by simp)]
  have e : str "multipart/form-data; boundary=" =
      str "multipart/form-data" ++ [59] ++ (str " boundary" ++ [61]) := by decide
  rw [e]
  simp only [List.append_assoc]

theorem trimLeft_of_head (c : Byte) (s : Bytes) (h : c ≠ 32 ∧ c ≠ 9) :
    trimLeft (c :: s) = c :: s := by
  simp [trimLeft, h.1, h.2]

theorem trimLeft_eq_self (s : Bytes) (h : ∀ c ∈ s, c ≠ 32 ∧ c ≠ 9) : trimLeft s = s := by
  cases s with
  | nil => rfl
  | cons c s => exact trimLeft_of_head c s (h c (by simp))

theorem trim_eq_self (s : Bytes) (h : ∀ c ∈ s, c ≠ 32 ∧ c ≠ 9) : trim s = s := by
  unfold trim
  rw [trimLeft_eq_self s h, trimLeft_eq_self s.reverse (fun c hc => h c (List.mem_reverse.mp hc))]
  simp

theorem splitOnFirst_single_none (c : Byte) (s : Bytes) (h : c ∉ s) :
    splitOnFirst [c] s = none := by
  rw [splitOnFirst_eq_none_iff]
  rintro ⟨a, r, e⟩
  apply h
  rw [← e]
  simp

theorem announcedBoundary_hex (b : Bytes) (hb : ∀ ch ∈ b, isLowerHex ch) :
    announcedBoundary (formDataContentType b) = some b := by
  rw [formDataContentType_hex b hb]
  have h1 : splitOnFirst [59] (str "multipart/form-data" ++ [59] ++ (str " boundary" ++ [61] ++ b))
      = some (str "multipart/form-data", str " boundary" ++ [61] ++ b) :=
    splitOnFirst_first 59 [] (by simp) _ _ (by decide)
  have h2 : splitOnFirst [61] (str "boundary" ++ [61] ++ b) = some (str "boundary", b) :=
    splitOnFirst_first 61 [] (by simp) _ _ (by decide)
  have h3 : trimLeft (str " boundary" ++ [61] ++ b) = str "boundary" ++ [61] ++ b := by
    have e : str " boundary" = 32 :: str "boundary" := by decide
    have e2 : str "boundary" = 98 :: str "oundary" := by decide
    rw [e, List.cons_append, List.cons_append]
    unfold trimLeft
    rw [if_pos (Or.inl rfl), e2, List.cons_append, List.cons_append]
    exact trimLeft_of_head _ _ (by decide)
  have hlen : ∃ n, (str "multipart/form-data" ++ [59] ++ (str " boundary" ++ [61] ++ b)).length
      = n + 1 := Nat.exists_eq_succ_of_ne_zero (by simp)
  obtain ⟨n, hn⟩ := hlen
  have hparams : readParams (n + 1) (59 :: (str " boundary" ++ [61] ++ b)) =
      some [(str "boundary", b)] := by
    unfold readParams
    rw [trimLeft_of_head 59 _ (by decide)]
    simp only [if_true, h3, h2]
    have hk : List.map lowerByte (str "boundary") = str "boundary" := by decide
    cases b with
    | nil => simp [hk]
    | cons q v =>
      have hq := lowerHex_plain q (hb q (by simp))
      have hno : splitOnFirst [59] (q :: v) = none :=
        splitOnFirst_single_none 59 (q :: v) (fun hm => (lowerHex_plain 59 (hb 59 hm)).2.2.2.2.2.1 rfl)
      have htrim : trim (q :: v) = q :: v :=
        trim_eq_self _ (fun c hc => ⟨(lowerHex_plain c (hb c hc)).2.2.2.2.2.2.1,
          (lowerHex_plain c (hb c hc)).2.2.2.2.2.2.2⟩)
      simp only [if_neg hq.2.2.2.2.1, hno, htrim, hk]
  unfold announcedBoundary readHeaderValue
  simp only [h1, hn, hparams]
  have ht : List.map lowerByte (trim (str "multipart/form-data")) = str "multipart/form-data" := by
    decide
  simp [ht, lookupParam]

theorem createFormFile_media (b : Bytes) :
    createFormFile b (str "media") (str "temp.png") =
      45 :: 45 :: (b ++ (13 :: 10 :: (dispositionLine ++
        (13 :: 10 :: (typeLine ++ [13, 10, 13, 10]))))) := by
  have e1 : str "--" = [45, 45] := by decide
  have eK : str "\r\n" ++ (str "Content-Disposition: " ++ (str "form-data; name=\"" ++
      (escapeQuotes (str "media") ++ (str "\"; filename=\"" ++ (escapeQuotes (str "temp.png") ++
      (str "\"" ++ (str "\r\n" ++ (str "Content-Type: " ++ (str "application/octet-stream" ++
      (str "\r\n" ++ str "\r\n"))))))))))
      = 13 :: 10 :: (dispositionLine ++ (13 :: 10 :: (typeLine ++ [13, 10, 13, 10]))) := by
    decide
  unfold createFormFile
  simp only [List.append_assoc]
  rw [e1, eK]
  rfl

theorem writerClose_eq (b : Bytes) : writerClose b = delimiter b ++ [45, 45, 13, 10] := by
  have e1 : str "\r\n--" = [13, 10, 45, 45] := by decide
  have e2 : str "--\r\n" = [45, 45, 13, 10] := by decide
  unfold writerClose delimiter
  rw [e1, e2]
  rfl

theorem uploadTempMediaBody_shape (env : Env) (req : UploadTempMediaReq) :
    crlf ++ uploadTempMediaBody env req =
      delimiter (randomBoundary env) ++
        (13 :: 10 :: (dispositionLine ++ (13 :: 10 :: (typeLine ++ (13 :: 10 ::
          ((13 :: 10 :: req.Image) ++ delimiter (randomBoundary env) ++ [45, 45, 13, 10])))))) := by
  unfold uploadTempMediaBody
  rw [createFormFile_media, writerClose_eq]
  simp [crlf, delimiter, List.append_assoc]

theorem delimiter_tail_no_cr (b : Bytes) (hb : ∀ ch ∈ b, isLowerHex ch) :
    (13 : Byte) ∉ (10 :: 45 :: 45 :: b) := by
  intro hm
  simp only [List.mem_cons] at hm
  rcases hm with h | h | h | h
  · exact absurd h (by decide)
  · exact absurd h (by decide)
  · exact absurd h (by decide)
  · exact (lowerHex_plain 13 (hb 13 h)).2.1 rfl

theorem splitOnFirst_rest (b img : Bytes) (hb : ∀ ch ∈ b, isLowerHex ch)
    (hfree : splitOnFirst (delimiter b) (13 :: 10 :: img) = none) :
    splitOnFirst (delimiter b)
      (13 :: 10 :: (dispositionLine ++ (13 :: 10 :: (typeLine ++ (13 :: 10 ::
          ((13 :: 10 :: img) ++ delimiter b ++ [45, 45, 13, 10]))))))
      = some (partText img, [45, 45, 13, 10]) := by
  have h13 := delimiter_tail_no_cr b hb
  have hs0 : splitOnFirst (delimiter b) ((13 :: 10 :: img) ++ delimiter b ++ [45, 45, 13, 10])
      = some (13 :: 10 :: img, [45, 45, 13, 10]) :=
    splitOnFirst_first 13 (10 :: 45 :: 45 :: b) h13 _ _ hfree
  have hs1 := splitOnFirst_skip_crlf 45 (45 :: b) _ _ _ (by simp [startsWith]) hs0
  have hs2 := splitOnFirst_skip (10 :: 45 :: 45 :: b) typeLine _ _ _ (by decide) hs1
  have hs3 := splitOnFirst_skip_crlf 45 (45 :: b) _ _ _
    (startsWith_append_false [45] typeLine _ (by decide) (by decide)) hs2
  have hs4 := splitOnFirst_skip (10 :: 45 :: 45 :: b) dispositionLine _ _ _ (by decide) hs3
  have hs5 := splitOnFirst_skip_crlf 45 (45 :: b) _ _ _
    (startsWith_append_false [45] dispositionLine _ (by decide) (by decide)) hs4
  exact hs5

theorem splitParts_rest (b img : Bytes) (hb : ∀ ch ∈ b, isLowerHex ch)
    (hfree : splitOnFirst (delimiter b) (13 :: 10 :: img) = none) (rest : Bytes)
    (hrest : rest = 13 :: 10 :: (dispositionLine ++ (13 :: 10 :: (typeLine ++ (13 :: 10 ::
          ((13 :: 10 :: img) ++ delimiter b ++ [45, 45, 13, 10])))))) :
    splitParts (delimiter b) rest.length rest = some [partText img] := by
  have hsplit := splitOnFirst_rest b img hb hfree
  rw [← hrest] at hsplit
  have hlen : ∃ m, rest.length = m + 1 + 1 := by
    refine ⟨rest.length - 2, ?_⟩
    have : 2 ≤ rest.length := by rw [hrest]; simp
    omega
  obtain ⟨m, hm⟩ := hlen
  have hstart : startsWith [45, 45] rest = false := by rw [hrest]; simp [startsWith]
  rw [hm]
  unfold splitParts
  rw [if_neg (by simp [hstart])]
  simp only [hsplit]
  unfold splitParts
  simp [startsWith]

theorem readPart_partText (img : Bytes) :
    readPart (partText img) = some ⟨str "media", some (str "temp.png"), img⟩ := by
  have htrim : trimLeft (partText img) = partText img := trimLeft_of_head _ _ (by decide)
  have hstart : startsWith crlf (partText img) = true := startsWith_append_self crlf _
  have k0 : splitOnFirst [13, 10, 13, 10] (13 :: 10 :: (13 :: 10 :: img)) = some ([], img) :=
    splitOnFirst_self [13, 10, 13, 10] img (by simp)
  have k1 := splitOnFirst_skip [10, 13, 10] typeLine _ _ _ (by decide) k0
  have k2 := splitOnFirst_skip_crlf 13 [10] _ _ _
    (startsWith_append_false [13] typeLine _ (by decide) (by decide)) k1
  have k3 := splitOnFirst_skip [10, 13, 10] dispositionLine _ _ _ (by decide) k2
  have k4 := splitOnFirst_skip_crlf 13 [10] _ _ _
    (startsWith_append_false [13] dispositionLine _ (by decide) (by decide)) k3
  have hd : readDisposition (13 :: 10 :: (dispositionLine ++ 13 :: 10 :: (typeLine ++ []))) =
      some (str "media", some (str "temp.png")) := by decide!
  unfold readPart
  rw [htrim, if_pos hstart]
  have hp : crlf ++ crlf = [13, 10, 13, 10] := rfl
  rw [hp]
  unfold partText
  rw [k4]
  simp only [hd, Option.map_some']

/-- Reading back the request of `UploadTempMedia`: when the delimiter does not
occur in the image preceded by a CRLF, the body has exactly one part, the form
field `media` with file name `temp.png`, whose content is the image. -/
theorem parseMultipartForm_uploadTempMedia (env : Env) (req : UploadTempMediaReq)
    (hfree : ¬ delimiter (randomBoundary env) <:+: crlf ++ req.Image) :
    parseMultipartForm (formDataContentType (randomBoundary env)) (uploadTempMediaBody env req) =
      some [⟨str "media", some (str "temp.png"), req.Image⟩] := by
  have hb := randomBoundary_lowerHex env
  have hnone := (splitOnFirst_eq_none_iff _ _).mpr hfree
  unfold parseMultipartForm
  rw [announcedBoundary_hex _ hb]
  simp only [uploadTempMediaBody_shape]
  rw [splitOnFirst_self _ _ (by simp [delimiter])]
  simp only [splitParts_rest _ req.Image hb hnone _ rfl]
  simp [readParts, readPart_partText]

/-! ## Decoding the members of a response -/

theorem findField_mem {σ : Type} (eq : Bytes → Bytes → Bool) (fields : List (Field σ))
    (key : Bytes) (f : Field σ) (h : findField eq fields key = some f) : f ∈ fields := by
  unfold findField at h
  cases h1 : fields.find? (fun f => f.name = key) with
  | some g =>
    rw [h1] at h
    simp only [Option.some.injEq] at h
    subst h
    exact List.mem_of_find?_eq_some h1
  | none =>
    rw [h1] at h
    exact List.mem_of_find?_eq_some h

theorem decodeMembers_cons_none {σ : Type} (eq : Bytes → Bytes → Bool) (fields : List (Field σ))
    (kv : Bytes × JSON) (rest : List (Bytes × JSON)) (v : σ) (saved : Option GoError)
    (h : findField eq fields kv.1 = none) :
    decodeMembers eq fields v saved (kv :: rest) = decodeMembers eq fields v saved rest := by
  rw [decodeMembers]
  simp only [h]

theorem decodeMembers_cons_some {σ : Type} (eq : Bytes → Bytes → Bool) (fields : List (Field σ))
    (kv : Bytes × JSON) (rest : List (Bytes × JSON)) (v : σ) (saved : Option GoError)
    (f : Field σ) (h : findField eq fields kv.1 = some f) :
    decodeMembers eq fields v saved (kv :: rest) =
      decodeMembers eq fields (f.store v kv.2).1
        (saved.orElse (fun _ => (f.store v kv.2).2)) rest := by
  rw [decodeMembers]
  simp only [h]

theorem decodeMembers_saved {σ : Type} (eq : Bytes → Bytes → Bool) (fields : List (Field σ))
    (e : GoError) (members : List (Bytes × JSON)) (v : σ) :
    (decodeMembers eq fields v (some e) members).2 = some e := by
  induction members generalizing v with
  | nil => rfl
  | cons kv rest ih =>
    cases hf : findField eq fields kv.1 with
    | none =>
      rw [decodeMembers_cons_none eq fields kv rest v _ hf]
      exact ih v
    | some f =>
      rw [decodeMembers_cons_some eq fields kv rest v _ f hf]
      exact ih _

theorem decodeMembers_append {σ : Type} (eq : Bytes → Bytes → Bool) (fields : List (Field σ))
    (pre post : List (Bytes × JSON)) (v : σ) (saved : Option GoError) :
    decodeMembers eq fields v saved (pre ++ post) =
      decodeMembers eq fields (decodeMembers eq fields v saved pre).1
        (decodeMembers eq fields v saved pre).2 post := by
  induction pre generalizing v saved with
  | nil => rfl
  | cons kv rest ih =>
    rw [List.cons_append]
    cases hf : findField eq fields kv.1 with
    | none =>
      rw [decodeMembers_cons_none eq fields kv _ v _ hf,
        decodeMembers_cons_none eq fields kv _ v _ hf]
      exact ih v saved
    | some f =>
      rw [decodeMembers_cons_some eq fields kv _ v _ f hf,
        decodeMembers_cons_some eq fields kv _ v _ f hf]
      exact ih _ _

/-- Members that do not select the field `name` leave unchanged whatever only
that field's store changes. -/
theorem decodeMembers_preserve {σ α : Type} (eq : Bytes → Bytes → Bool) (fields : List (Field σ))
    (g : σ → α) (name : Bytes)
    (hfields : ∀ f ∈ fields, f.name ≠ name → ∀ v x, g (f.store v x).1 = g v)
    (members : List (Bytes × JSON))
    (hno : ∀ kv ∈ members, selects eq fields kv.1 name = false) (v : σ) (saved : Option GoError) :
    g (decodeMembers eq fields v saved members).1 = g v := by
  induction members generalizing v saved with
  | nil => rfl
  | cons kv rest ih =>
    have hrest : ∀ kv ∈ rest, selects eq fields kv.1 name = false :=
      fun kv2 h2 => hno kv2 (List.mem_cons_of_mem _ h2)
    have hkv := hno kv (by simp)
    cases hf : findField eq fields kv.1 with
    | none =>
      rw [decodeMembers_cons_none eq fields kv rest v _ hf]
      exact ih hrest v saved
    | some f =>
      have hne : f.name ≠ name := by
        intro e
        simp [selects, hf, e] at hkv
      rw [decodeMembers_cons_some eq fields kv rest v _ f hf, ih hrest]
      exact hfields f (findField_mem eq fields kv.1 f hf) hne v kv.2

/-- The last member that selects a field decides it, and when decoding ends
without error its store raised none. -/
theorem decodeMembers_last {σ α : Type} (eq : Bytes → Bytes → Bool) (fields : List (Field σ))
    (g : σ → α) (name : Bytes)
    (hfields : ∀ f ∈ fields, f.name ≠ name → ∀ v x, g (f.store v x).1 = g v)
    (pre post : List (Bytes × JSON)) (key : Bytes) (x : JSON) (f : Field σ)
    (hsel : findField eq fields key = some f)
    (hno : ∀ kv ∈ post, selects eq fields kv.1 name = false) (v : σ) (saved : Option GoError)
    (hok : (decodeMembers eq fields v saved (pre ++ (key, x) :: post)).2 = none) :
    g (decodeMembers eq fields v saved (pre ++ (key, x) :: post)).1 =
        g (f.store (decodeMembers eq fields v saved pre).1 x).1 ∧
      (f.store (decodeMembers eq fields v saved pre).1 x).2 = none := by
  rw [decodeMembers_append] at hok ⊢
  generalize decodeMembers eq fields v saved pre = mid at hok ⊢
  rw [decodeMembers_cons_some eq fields (key, x) post mid.1 mid.2 f hsel] at hok ⊢
  constructor
  · exact decodeMembers_preserve eq fields g name hfields post hno _ _
  · cases hs : (f.store mid.1 x).2 with
    | none => rfl
    | some e =>
      exfalso
      simp only [hs] at hok
      cases hm : mid.2 with
      | none =>
        rw [hm] at hok
        simp only [Option.orElse] at hok
        rw [decodeMembers_saved] at hok
        cases hok
      | some e2 =>
        rw [hm] at hok
        simp only [Option.orElse] at hok
        rw [decodeMembers_saved] at hok
        cases hok

/-! ## Claims about `CheckSignature` -/

/-- C1: `CheckSignature(accessToken, nonce, timestamp, signature)` is true exactly
when `signature` is the lowercase hexadecimal SHA-1 digest of `s0 ++ s1 ++ s2`,
where `s0, s1, s2` are the three strings `accessToken, nonce, timestamp`
arranged in ascending byte-wise lexicographic order. -/
theorem CheckSignature_iff_digest_of_sorted (accessToken nonce timestamp signature : Bytes)
    (s0 s1 s2 : Bytes) (hperm : [s0, s1, s2].Perm [accessToken, nonce, timestamp])
    (h01 : lexLE s0 s1) (h12 : lexLE s1 s2) :
    CheckSignature accessToken nonce timestamp signature = true ↔
      signature = sha1Hex (s0 ++ s1 ++ s2) := by
  have hs := sortStrings_unique [accessToken, nonce, timestamp] [s0, s1, s2] hperm
    (sorted_three s0 s1 s2 h01 h12)
  rw [CheckSignature_eq, hs, stringsJoin_three]
  simp only [decide_eq_true_eq]
  exact eq_comm

/-- C1, at the inputs `("token", "n1", "t1")`: the sorted arrangement is
`n1, t1, token`, the hashed string is `n1t1token`, and the accepted signature is
its digest. -/
theorem CheckSignature_iff_digest_of_sorted_witness :
    [str "n1", str "t1", str "token"].Perm [str "token", str "n1", str "t1"] ∧
    lexLE (str "n1") (str "t1") ∧ lexLE (str "t1") (str "token") ∧
    str "n1" ++ str "t1" ++ str "token" = str "n1t1token" ∧
    (CheckSignature (str "token") (str "n1") (str "t1")
        (str "d1b2e6c1451345d83d4b1fd15f4daaffeb71b5c2") = true ↔
      str "d1b2e6c1451345d83d4b1fd15f4daaffeb71b5c2" =
        sha1Hex (str "n1" ++ str "t1" ++ str "token")) :=
  ⟨by decide, lexLE_of_not_less _ _ (by decide), lexLE_of_not_less _ _ (by decide),
    by decide,
    CheckSignature_iff_digest_of_sorted (str "token") (str "n1") (str "t1")
      (str "d1b2e6c1451345d83d4b1fd15f4daaffeb71b5c2") (str "n1") (str "t1") (str "token")
      (by decide) (lexLE_of_not_less _ _ (by decide)) (lexLE_of_not_less _ _ (by decide))⟩

/-- C2: the result of `CheckSignature` does not depend on the order in which the
three non-signature arguments are passed: for every permutation `(x, y, z)` of
`(a, b, c)`, `CheckSignature(x, y, z, sig) = CheckSignature(a, b, c, sig)`. -/
theorem CheckSignature_perm_invariant (a b c x y z sig : Bytes)
    (hperm : [x, y, z].Perm [a, b, c]) :
    CheckSignature x y z sig = CheckSignature a b c sig := by
  rw [CheckSignature_eq, CheckSignature_eq, sortStrings_congr _ _ hperm]

/-- C2, at the permutation `("t1", "token", "n1")` of `("token", "n1", "t1")`. -/
theorem CheckSignature_perm_invariant_witness :
    [str "t1", str "token", str "n1"].Perm [str "token", str "n1", str "t1"] ∧
    CheckSignature (str "t1") (str "token") (str "n1")
        (str "d1b2e6c1451345d83d4b1fd15f4daaffeb71b5c2") =
      CheckSignature (str "token") (str "n1") (str "t1")
        (str "d1b2e6c1451345d83d4b1fd15f4daaffeb71b5c2") :=
  ⟨by decide,
    CheckSignature_perm_invariant (str "token") (str "n1") (str "t1") (str "t1") (str "token")
      (str "n1") (str "d1b2e6c1451345d83d4b1fd15f4daaffeb71b5c2") (by decide)⟩

/-- C3: if `CheckSignature(a, b, c, sig)` is true and `sig2` is `sig` with a
single character changed (same length, exactly one differing position), then
`CheckSignature(a, b, c, sig2)` is false. -/
theorem CheckSignature_rejects_single_mutation (a b c sig sig2 : Bytes)
    (hvalid : CheckSignature a b c sig = true) (hmut : singleCharMutation sig sig2) :
    CheckSignature a b c sig2 = false := by
  rw [CheckSignature_eq] at hvalid ⊢
  simp only [decide_eq_true_eq] at hvalid
  simp only [decide_eq_false_iff_not]
  intro h
  have e : sig = sig2 := hvalid.symm.trans h
  subst e
  have := hmut.2
  rw [mismatches_self] at this
  cases this

/-- C3, at the valid signature of `("token", "n1", "t1")` with its first
character changed from `d` to `e`. -/
theorem CheckSignature_rejects_single_mutation_witness :
    CheckSignature (str "token") (str "n1") (str "t1")
        (str "d1b2e6c1451345d83d4b1fd15f4daaffeb71b5c2") = true ∧
    singleCharMutation (str "d1b2e6c1451345d83d4b1fd15f4daaffeb71b5c2")
        (str "e1b2e6c1451345d83d4b1fd15f4daaffeb71b5c2") ∧
    CheckSignature (str "token") (str "n1") (str "t1")
        (str "e1b2e6c1451345d83d4b1fd15f4daaffeb71b5c2") = false :=
  ⟨by decide!, by decide,
    CheckSignature_rejects_single_mutation (str "token") (str "n1") (str "t1")
      (str "d1b2e6c1451345d83d4b1fd15f4daaffeb71b5c2")
      (str "e1b2e6c1451345d83d4b1fd15f4daaffeb71b5c2") (by decide!) (by decide)⟩

/-- C9: `CheckSignature` depends on its first three arguments only through their
sorted concatenation. Whenever two triples, arranged in ascending order as
`s0, s1, s2` and `u0, u1, u2`, have the same concatenation, `CheckSignature`
returns the same result on both for every signature. This happens for triples
that are not permutations of each other: `("a", "bc", "d")` and
`("ab", "c", "d")` both hash `abcd` and are accepted by exactly the same
signatures. -/
theorem CheckSignature_field_boundaries_unbound :
    (∀ a b c s0 s1 s2 x y z u0 u1 u2 sig : Bytes,
      [s0, s1, s2].Perm [a, b, c] → lexLE s0 s1 → lexLE s1 s2 →
      [u0, u1, u2].Perm [x, y, z] → lexLE u0 u1 → lexLE u1 u2 →
      s0 ++ s1 ++ s2 = u0 ++ u1 ++ u2 →
      CheckSignature a b c sig = CheckSignature x y z sig) ∧
    ¬ [str "a", str "bc", str "d"].Perm [str "ab", str "c", str "d"] ∧
    stringsJoin (sortStrings [str "a", str "bc", str "d"]) = str "abcd" ∧
    stringsJoin (sortStrings [str "ab", str "c", str "d"]) = str "abcd" ∧
    (∀ sig : Bytes, CheckSignature (str "a") (str "bc") (str "d") sig =
      CheckSignature (str "ab") (str "c") (str "d") sig) := by
  refine ⟨?_, by decide, by decide, by decide, ?_⟩
  · intro a b c s0 s1 s2 x y z u0 u1 u2 sig hp h01 h12 hq k01 k12 hcat
    have e1 := sortStrings_unique [a, b, c] [s0, s1, s2] hp (sorted_three s0 s1 s2 h01 h12)
    have e2 := sortStrings_unique [x, y, z] [u0, u1, u2] hq (sorted_three u0 u1 u2 k01 k12)
    rw [CheckSignature_eq, CheckSignature_eq, e1, e2, stringsJoin_three, stringsJoin_three, hcat]
  · intro sig
    rw [CheckSignature_eq, CheckSignature_eq]
    have e1 : stringsJoin (sortStrings [str "a", str "bc", str "d"]) = str "abcd" := by decide
    have e2 : stringsJoin (sortStrings [str "ab", str "c", str "d"]) = str "abcd" := by decide
    rw [e1, e2]

/-- C9, at the triples `("a", "bc", "d")` and `("ab", "c", "d")` and the digest
of `abcd`: both calls return the same result. -/
theorem CheckSignature_field_boundaries_unbound_witness :
    CheckSignature (str "a") (str "bc") (str "d") (sha1Hex (str "abcd")) =
      CheckSignature (str "ab") (str "c") (str "d") (sha1Hex (str "abcd")) :=
  CheckSignature_field_boundaries_unbound.1 (str "a") (str "bc") (str "d")
    (str "a") (str "bc") (str "d") (str "ab") (str "c") (str "d") (str "ab") (str "c") (str "d")
    (sha1Hex (str "abcd")) (by decide)
    (lexLE_of_not_less _ _ (by decide)) (lexLE_of_not_less _ _ (by decide)) (by decide)
    (lexLE_of_not_less _ _ (by decide)) (lexLE_of_not_less _ _ (by decide)) (by decide)

/-- C10 fails as stated: the correct digest of `("token", "11639956",
"1700000000")` is `3801271333921287954261722324913019131786`, which has no
letter, so its upper-case rendering is the digest itself and is accepted. -/
theorem CheckSignature_accepts_upper_rendering_of_digit_digest :
    sha1Hex (str "11639956" ++ str "1700000000" ++ str "token") =
      str "3801271333921287954261722324913019131786" ∧
    CheckSignature (str "token") (str "11639956") (str "1700000000")
      (sha1Hex (str "11639956" ++ str "1700000000" ++ str "token")) = true ∧
    CheckSignature (str "token") (str "11639956") (str "1700000000")
      ((sha1Hex (str "11639956" ++ str "1700000000" ++ str "token")).map upperByte) = true := by
  refine ⟨?_, ?_, ?_⟩ <;> decide!

/-- C10, amended: if `CheckSignature(a, b, c, sig)` is true then `sig` has
exactly 40 characters, each in `0-9` or `a-f`. In particular the empty
signature is rejected; the correct digest with any non-empty text (white space
included) before or after it is rejected; and the upper-case rendering of the
correct digest is rejected whenever the digest contains a letter `a-f`. -/
theorem CheckSignature_accepts_only_lower_hex40 :
    (∀ a b c sig : Bytes, CheckSignature a b c sig = true →
      sig.length = 40 ∧ ∀ ch ∈ sig, isLowerHex ch) ∧
    (∀ a b c : Bytes, CheckSignature a b c [] = false) ∧
    (∀ a b c sig ws : Bytes, CheckSignature a b c sig = true → ws ≠ [] →
      CheckSignature a b c (ws ++ sig) = false ∧ CheckSignature a b c (sig ++ ws) = false) ∧
    (∀ a b c sig : Bytes, CheckSignature a b c sig = true → (∃ ch ∈ sig, 97 ≤ ch.val) →
      CheckSignature a b c (sig.map upperByte) = false) := by
  have main : ∀ a b c sig : Bytes, CheckSignature a b c sig = true →
      sig.length = 40 ∧ ∀ ch ∈ sig, isLowerHex ch := by
    intro a b c sig h
    rw [CheckSignature_eq] at h
    simp only [decide_eq_true_eq] at h
    subst h
    exact ⟨sha1Hex_length _, hexEncodeToString_lowerHex _⟩
  have len40 : ∀ a b c sig : Bytes, sig.length ≠ 40 → CheckSignature a b c sig = false := by
    intro a b c sig hlen
    cases h : CheckSignature a b c sig with
    | false => rfl
    | true => exact absurd (main a b c sig h).1 hlen
  refine ⟨main, ?_, ?_, ?_⟩
  · intro a b c
    exact len40 a b c [] (by simp)
  · intro a b c sig ws h hws
    have hl := (main a b c sig h).1
    have hpos : 0 < ws.length := List.length_pos.mpr hws
    constructor
    · apply len40
      rw [List.length_append]
      omega
    · apply len40
      rw [List.length_append]
      omega
  · intro a b c sig h hex
    obtain ⟨ch, hmem, hge⟩ := hex
    cases h2 : CheckSignature a b c (sig.map upperByte) with
    | false => rfl
    | true =>
      exfalso
      have hlow := (main a b c _ h2).2 (upperByte ch) (List.mem_map.mpr ⟨ch, hmem, rfl⟩)
      have hch := (main a b c sig h).2 ch hmem
      unfold isLowerHex at hlow hch
      have hrange : 97 ≤ ch.val ∧ ch.val ≤ 122 := by omega
      have hu : (upperByte ch).val = ch.val - 32 := by
        unfold upperByte
        rw [if_pos hrange]
        show (ch.val - 32) % 256 = ch.val - 32
        have := ch.isLt
        omega
      omega

/-- C10 amended, at the valid signature of `("token", "n1", "t1")`: it has 40
characters, all in `0-9` or `a-f`; it contains the letter `d`, and its
upper-case rendering is rejected. -/
theorem CheckSignature_accepts_only_lower_hex40_witness :
    CheckSignature (str "token") (str "n1") (str "t1")
        (str "d1b2e6c1451345d83d4b1fd15f4daaffeb71b5c2") = true ∧
    ((str "d1b2e6c1451345d83d4b1fd15f4daaffeb71b5c2").length = 40 ∧
      ∀ ch ∈ str "d1b2e6c1451345d83d4b1fd15f4daaffeb71b5c2", isLowerHex ch) ∧
    CheckSignature (str "token") (str "n1") (str "t1")
        ((str "d1b2e6c1451345d83d4b1fd15f4daaffeb71b5c2").map upperByte) = false :=
  ⟨by decide!,
    CheckSignature_accepts_only_lower_hex40.1 (str "token") (str "n1") (str "t1")
      (str "d1b2e6c1451345d83d4b1fd15f4daaffeb71b5c2") (by decide!),
    CheckSignature_accepts_only_lower_hex40.2.2.2 (str "token") (str "n1") (str "t1")
      (str "d1b2e6c1451345d83d4b1fd15f4daaffeb71b5c2") (by decide!)
      ⟨100, by decide, by decide⟩⟩

/-! ## Claims about `SendMessage` and `UploadTempMedia` -/

theorem selects_true {σ : Type} (eq : Bytes → Bytes → Bool) (fields : List (Field σ))
    (key name : Bytes) (h : selects eq fields key name = true) :
    ∃ f, findField eq fields key = some f ∧ f ∈ fields ∧ f.name = name := by
  unfold selects at h
  cases hf : findField eq fields key with
  | none => simp [hf] at h
  | some f =>
    simp only [hf, decide_eq_true_eq] at h
    exact ⟨f, rfl, findField_mem eq fields key f hf, h⟩

theorem upload_other_fields_keep_errcode :
    ∀ f ∈ uploadTempMediaRespFields, f.name ≠ str "errcode" →
      ∀ (v : UploadTempMediaResp) (x : JSON), (f.store v x).1.Errcode = v.Errcode := by
  intro f hf hne v x
  simp only [uploadTempMediaRespFields, List.mem_cons, List.mem_singleton, List.not_mem_nil,
    or_false] at hf
  rcases hf with rfl | rfl | rfl | rfl | rfl
  · rfl
  · rfl
  · rfl
  · exact absurd rfl hne
  · rfl

theorem upload_other_fields_keep_media_id :
    ∀ f ∈ uploadTempMediaRespFields, f.name ≠ str "media_id" →
      ∀ (v : UploadTempMediaResp) (x : JSON), (f.store v x).1.MediaID = v.MediaID := by
  intro f hf hne v x
  simp only [uploadTempMediaRespFields, List.mem_cons, List.mem_singleton, List.not_mem_nil,
    or_false] at hf
  rcases hf with rfl | rfl | rfl | rfl | rfl
  · rfl
  · exact absurd rfl hne
  · rfl
  · rfl
  · rfl

theorem upload_other_fields_keep_type :
    ∀ f ∈ uploadTempMediaRespFields, f.name ≠ str "type" →
      ∀ (v : UploadTempMediaResp) (x : JSON), (f.store v x).1.Type_ = v.Type_ := by
  intro f hf hne v x
  simp only [uploadTempMediaRespFields, List.mem_cons, List.mem_singleton, List.not_mem_nil,
    or_false] at hf
  rcases hf with rfl | rfl | rfl | rfl | rfl
  · rfl
  · rfl
  · exact absurd rfl hne
  · rfl
  · rfl

theorem upload_other_fields_keep_created_at :
    ∀ f ∈ uploadTempMediaRespFields, f.name ≠ str "created_at" →
      ∀ (v : UploadTempMediaResp) (x : JSON), (f.store v x).1.CreatedAt = v.CreatedAt := by
  intro f hf hne v x
  simp only [uploadTempMediaRespFields, List.mem_cons, List.mem_singleton, List.not_mem_nil,
    or_false] at hf
  rcases hf with rfl | rfl | rfl | rfl | rfl
  · exact absurd rfl hne
  · rfl
  · rfl
  · rfl
  · rfl

theorem upload_store_media_id (f : Field UploadTempMediaResp) (hf : f ∈ uploadTempMediaRespFields)
    (hname : f.name = str "media_id") (v : UploadTempMediaResp) (s : Bytes) :
    (f.store v (.string s)).1.MediaID = s := by
  simp only [uploadTempMediaRespFields, List.mem_cons, List.mem_singleton, List.not_mem_nil,
    or_false] at hf
  rcases hf with rfl | rfl | rfl | rfl | rfl
  · exact absurd hname (by decide)
  · rfl
  · exact absurd hname (by decide)
  · exact absurd hname (by decide)
  · exact absurd hname (by decide)

theorem upload_store_type (f : Field UploadTempMediaResp) (hf : f ∈ uploadTempMediaRespFields)
    (hname : f.name = str "type") (v : UploadTempMediaResp) (s : Bytes) :
    (f.store v (.string s)).1.Type_ = s := by
  simp only [uploadTempMediaRespFields, List.mem_cons, List.mem_singleton, List.not_mem_nil,
    or_false] at hf
  rcases hf with rfl | rfl | rfl | rfl | rfl
  · exact absurd hname (by decide)
  · exact absurd hname (by decide)
  · rfl
  · exact absurd hname (by decide)
  · exact absurd hname (by decide)

theorem upload_store_created_at (f : Field UploadTempMediaResp)
    (hf : f ∈ uploadTempMediaRespFields) (hname : f.name = str "created_at")
    (v : UploadTempMediaResp) (n : Int) (hok : (f.store v (.number (some n))).2 = none) :
    (f.store v (.number (some n))).1.CreatedAt = n := by
  simp only [uploadTempMediaRespFields, List.mem_cons, List.mem_singleton, List.not_mem_nil,
    or_false] at hf
  rcases hf with rfl | rfl | rfl | rfl | rfl
  · simp only [storeInt] at hok ⊢
    by_cases hr : -(2 : Int) ^ 63 ≤ n ∧ n < (2 : Int) ^ 63
    · rw [if_pos hr]
    · rw [if_neg hr] at hok
      cases hok
  · exact absurd hname (by decide)
  · exact absurd hname (by decide)
  · exact absurd hname (by decide)
  · exact absurd hname (by decide)

theorem upload_other_fields_keep_errmsg :
    ∀ f ∈ uploadTempMediaRespFields, f.name ≠ str "errmsg" →
      ∀ (v : UploadTempMediaResp) (x : JSON), (f.store v x).1.Errmsg = v.Errmsg := by
  intro f hf hne v x
  simp only [uploadTempMediaRespFields, List.mem_cons, List.mem_singleton, List.not_mem_nil,
    or_false] at hf
  rcases hf with rfl | rfl | rfl | rfl | rfl
  · rfl
  · rfl
  · rfl
  · rfl
  · exact absurd rfl hne

theorem upload_store_errmsg (f : Field UploadTempMediaResp) (hf : f ∈ uploadTempMediaRespFields)
    (hname : f.name = str "errmsg") (v : UploadTempMediaResp) (s : Bytes) :
    (f.store v (.string s)).1.Errmsg = s := by
  simp only [uploadTempMediaRespFields, List.mem_cons, List.mem_singleton, List.not_mem_nil,
    or_false] at hf
  rcases hf with rfl | rfl | rfl | rfl | rfl
  · exact absurd hname (by decide)
  · exact absurd hname (by decide)
  · exact absurd hname (by decide)
  · exact absurd hname (by decide)
  · rfl

theorem upload_store_errcode (f : Field UploadTempMediaResp)
    (hf : f ∈ uploadTempMediaRespFields) (hname : f.name = str "errcode")
    (v : UploadTempMediaResp) (n : Int) (hok : (f.store v (.number (some n))).2 = none) :
    (f.store v (.number (some n))).1.Errcode = n := by
  simp only [uploadTempMediaRespFields, List.mem_cons, List.mem_singleton, List.not_mem_nil,
    or_false] at hf
  rcases hf with rfl | rfl | rfl | rfl | rfl
  · exact absurd hname (by decide)
  · exact absurd hname (by decide)
  · exact absurd hname (by decide)
  · simp only [storeInt] at hok ⊢
    by_cases hr : -(2 : Int) ^ 63 ≤ n ∧ n < (2 : Int) ^ 63
    · rw [if_pos hr]
    · rw [if_neg hr] at hok
      cases hok
  · exact absurd hname (by decide)

theorem SendMessage_eq (env : Env) (req : SendMessageReq) :
    SendMessage env req =
      match env.httpPost (sendMessageRequest req) with
      | .error err => ⟨[sendMessageRequest req], some err⟩
      | .ok (.error err) => ⟨[sendMessageRequest req], some err⟩
      | .ok (.ok body) =>
        match (jsonUnmarshal env sendMessageRespFields body SendMessageResp.zero).2 with
        | some err => ⟨[sendMessageRequest req], some err⟩
        | none =>
          if (jsonUnmarshal env sendMessageRespFields body SendMessageResp.zero).1.Errcode = 0
          then ⟨[sendMessageRequest req], none⟩
          else ⟨[sendMessageRequest req], some (.errorString
            (jsonUnmarshal env sendMessageRespFields body SendMessageResp.zero).1.Errmsg)⟩ :=
  rfl

theorem UploadTempMedia_eq (env : Env) (req : UploadTempMediaReq) :
    UploadTempMedia env req =
      match env.httpPost (uploadTempMediaRequest env req) with
      | .error err => ⟨[uploadTempMediaRequest env req], (UploadTempMediaResp.zero, some err)⟩
      | .ok (.error err) => ⟨[uploadTempMediaRequest env req], (UploadTempMediaResp.zero, some err)⟩
      | .ok (.ok body) =>
        match (jsonUnmarshal env uploadTempMediaRespFields body UploadTempMediaResp.zero).2 with
        | some err => ⟨[uploadTempMediaRequest env req],
            ((jsonUnmarshal env uploadTempMediaRespFields body UploadTempMediaResp.zero).1,
              some err)⟩
        | none =>
          if (jsonUnmarshal env uploadTempMediaRespFields body
            UploadTempMediaResp.zero).1.Errcode = 0
          then ⟨[uploadTempMediaRequest env req],
            ((jsonUnmarshal env uploadTempMediaRespFields body UploadTempMediaResp.zero).1, none)⟩
          else ⟨[uploadTempMediaRequest env req],
            ((jsonUnmarshal env uploadTempMediaRespFields body UploadTempMediaResp.zero).1,
              some (.errorString
                (jsonUnmarshal env uploadTempMediaRespFields body
                  UploadTempMediaResp.zero).1.Errmsg))⟩ :=
  rfl

theorem SendMessage_posted (env : Env) (req : SendMessageReq) :
    (SendMessage env req).posted = [sendMessageRequest req] := by
  rw [SendMessage_eq]
  split
  · rfl
  · rfl
  · split
    · rfl
    · split <;> rfl

theorem UploadTempMedia_posted (env : Env) (req : UploadTempMediaReq) :
    (UploadTempMedia env req).posted = [uploadTempMediaRequest env req] := by
  rw [UploadTempMedia_eq]
  split
  · rfl
  · rfl
  · split
    · rfl
    · split <;> rfl

/-- C4: when the transport delivers a response body and it decodes, without
error, as the `SendMessageResp` value `smr`, `SendMessage` returns nil if
`smr.Errcode` is 0, and otherwise the error `errors.New(smr.Errmsg)`, whose
text is exactly `smr.Errmsg`. -/
theorem SendMessage_result_of_response (env : Env) (req : SendMessageReq) (body : Bytes)
    (smr : SendMessageResp)
    (hpost : env.httpPost (sendMessageRequest req) = .ok (.ok body))
    (hdec : jsonUnmarshal env sendMessageRespFields body SendMessageResp.zero = (smr, none)) :
    (smr.Errcode = 0 → (SendMessage env req).result = none) ∧
    (smr.Errcode ≠ 0 →
      (SendMessage env req).result = some (GoError.errorString smr.Errmsg) ∧
      (GoError.errorString smr.Errmsg).Error = some smr.Errmsg) := by
  rw [SendMessage_eq]
  simp only [hpost, hdec]
  constructor
  · intro h0
    rw [if_pos h0]
  · intro h0
    rw [if_neg h0]
    exact ⟨rfl, rfl⟩

/-- C4, at the two mocked endpoints: the body `{"errcode":0}` gives success;
the body `{"errcode":40001,"errmsg":"invalid credential"}` gives a failure whose
text is `invalid credential`. -/
theorem SendMessage_result_of_response_witness :
    (SendMessage envSuccess textMessage).result = none ∧
    (SendMessage envInvalidCredential textMessage).result =
        some (GoError.errorString (str "invalid credential")) ∧
    (GoError.errorString (str "invalid credential")).Error = some (str "invalid credential") :=
  ⟨(SendMessage_result_of_response envSuccess textMessage (str "\x7b\"errcode\":0\x7d")
      { Errcode := 0, Errmsg := [] } rfl (by decide)).1 rfl,
    (SendMessage_result_of_response envInvalidCredential textMessage
      (str "\x7b\"errcode\":40001,\"errmsg\":\"invalid credential\"\x7d")
      { Errcode := 40001, Errmsg := str "invalid credential" } rfl (by decide)).2 (by decide)⟩

/-- C5: when the transport delivers a response body and it decodes, without
error, as the `UploadTempMediaResp` value `utmr`: if `utmr.Errcode` is 0 the
result is `utmr` with a nil error, otherwise it is `utmr` with the error
`errors.New(utmr.Errmsg)`. The decoded value is tied to the body, an object with
the given members: if no member selects `errcode`, the call succeeds; a string
member that is the last to select `media_id` (or `type`) is returned as
`MediaID` (or `Type`), and an integer member that is the last to select
`created_at` is returned as `CreatedAt`; an integer member `n` that is the last
to select `errcode` makes the call succeed when `n` is 0 and fail when it is
not, and then the text of the error is the string member that is the last to
select `errmsg`. -/
theorem UploadTempMedia_result_of_response (env : Env) (req : UploadTempMediaReq) (body : Bytes)
    (utmr : UploadTempMediaResp)
    (hpost : env.httpPost (uploadTempMediaRequest env req) = .ok (.ok body))
    (hdec : jsonUnmarshal env uploadTempMediaRespFields body UploadTempMediaResp.zero =
      (utmr, none)) :
    (utmr.Errcode = 0 → (UploadTempMedia env req).result = (utmr, none)) ∧
    (utmr.Errcode ≠ 0 →
      (UploadTempMedia env req).result = (utmr, some (GoError.errorString utmr.Errmsg)) ∧
      (GoError.errorString utmr.Errmsg).Error = some utmr.Errmsg) ∧
    (∀ members : List (Bytes × JSON), env.jsonParse body = .ok (.object members) →
      ((∀ kv ∈ members,
          selects env.equalFold uploadTempMediaRespFields kv.1 (str "errcode") = false) →
        (UploadTempMedia env req).result = (utmr, none)) ∧
      (∀ (pre post : List (Bytes × JSON)) (key s : Bytes),
        members = pre ++ (key, JSON.string s) :: post →
        selects env.equalFold uploadTempMediaRespFields key (str "media_id") = true →
        (∀ kv ∈ post,
          selects env.equalFold uploadTempMediaRespFields kv.1 (str "media_id") = false) →
        utmr.MediaID = s) ∧
      (∀ (pre post : List (Bytes × JSON)) (key s : Bytes),
        members = pre ++ (key, JSON.string s) :: post →
        selects env.equalFold uploadTempMediaRespFields key (str "type") = true →
        (∀ kv ∈ post,
          selects env.equalFold uploadTempMediaRespFields kv.1 (str "type") = false) →
        utmr.Type_ = s) ∧
      (∀ (pre post : List (Bytes × JSON)) (key : Bytes) (n : Int),
        members = pre ++ (key, JSON.number (some n)) :: post →
        selects env.equalFold uploadTempMediaRespFields key (str "created_at") = true →
        (∀ kv ∈ post,
          selects env.equalFold uploadTempMediaRespFields kv.1 (str "created_at") = false) →
        utmr.CreatedAt = n) ∧
      (∀ (pre post : List (Bytes × JSON)) (key : Bytes) (n : Int),
        members = pre ++ (key, JSON.number (some n)) :: post →
        selects env.equalFold uploadTempMediaRespFields key (str "errcode") = true →
        (∀ kv ∈ post,
          selects env.equalFold uploadTempMediaRespFields kv.1 (str "errcode") = false) →
        utmr.Errcode = n ∧
        (n = 0 → (UploadTempMedia env req).result = (utmr, none)) ∧
        (n ≠ 0 → ∀ (pre2 post2 : List (Bytes × JSON)) (key2 s : Bytes),
          members = pre2 ++ (key2, JSON.string s) :: post2 →
          selects env.equalFold uploadTempMediaRespFields key2 (str "errmsg") = true →
          (∀ kv ∈ post2,
            selects env.equalFold uploadTempMediaRespFields kv.1 (str "errmsg") = false) →
          utmr.Errmsg = s ∧
          ((UploadTempMedia env req).result).2 = some (GoError.errorString s) ∧
          (GoError.errorString s).Error = some s))) := by
  have hzero : utmr.Errcode = 0 → (UploadTempMedia env req).result = (utmr, none) := by
    intro h0
    rw [UploadTempMedia_eq]
    simp only [hpost, hdec]
    rw [if_pos h0]
  have hnonzero : utmr.Errcode ≠ 0 →
      (UploadTempMedia env req).result = (utmr, some (GoError.errorString utmr.Errmsg)) := by
    intro h0
    rw [UploadTempMedia_eq]
    simp only [hpost, hdec]
    rw [if_neg h0]
  refine ⟨hzero, fun h0 => ⟨hnonzero h0, rfl⟩, ?_⟩
  intro members hparse
  have hdm : decodeMembers env.equalFold uploadTempMediaRespFields UploadTempMediaResp.zero
      none members = (utmr, none) := by
    have := hdec
    unfold jsonUnmarshal at this
    simpa only [hparse] using this
  have h1 : (decodeMembers env.equalFold uploadTempMediaRespFields UploadTempMediaResp.zero
      none members).1 = utmr := by rw [hdm]
  have h2 : (decodeMembers env.equalFold uploadTempMediaRespFields UploadTempMediaResp.zero
      none members).2 = none := by rw [hdm]
  have hmsg : ∀ (pre post : List (Bytes × JSON)) (key s : Bytes),
      members = pre ++ (key, JSON.string s) :: post →
      selects env.equalFold uploadTempMediaRespFields key (str "errmsg") = true →
      (∀ kv ∈ post,
        selects env.equalFold uploadTempMediaRespFields kv.1 (str "errmsg") = false) →
      utmr.Errmsg = s := by
    intro pre post key s hm hsel hno
    obtain ⟨f, hf, hmem, hname⟩ := selects_true _ _ _ _ hsel
    subst hm
    have := (decodeMembers_last env.equalFold uploadTempMediaRespFields (fun v => v.Errmsg)
      (str "errmsg") upload_other_fields_keep_errmsg pre post key (.string s) f hf hno
      _ _ h2).1
    rw [← h1]
    exact this.trans (upload_store_errmsg f hmem hname _ s)
  refine ⟨?_, ?_, ?_, ?_, ?_⟩
  · intro hno
    apply hzero
    rw [← h1]
    exact decodeMembers_preserve env.equalFold uploadTempMediaRespFields (fun v => v.Errcode)
      (str "errcode") upload_other_fields_keep_errcode members hno _ _
  · intro pre post key s hm hsel hno
    obtain ⟨f, hf, hmem, hname⟩ := selects_true _ _ _ _ hsel
    subst hm
    have := (decodeMembers_last env.equalFold uploadTempMediaRespFields (fun v => v.MediaID)
      (str "media_id") upload_other_fields_keep_media_id pre post key (.string s) f hf hno
      _ _ h2).1
    rw [← h1]
    exact this.trans (upload_store_media_id f hmem hname _ s)
  · intro pre post key s hm hsel hno
    obtain ⟨f, hf, hmem, hname⟩ := selects_true _ _ _ _ hsel
    subst hm
    have := (decodeMembers_last env.equalFold uploadTempMediaRespFields (fun v => v.Type_)
      (str "type") upload_other_fields_keep_type pre post key (.string s) f hf hno
      _ _ h2).1
    rw [← h1]
    exact this.trans (upload_store_type f hmem hname _ s)
  · intro pre post key n hm hsel hno
    obtain ⟨f, hf, hmem, hname⟩ := selects_true _ _ _ _ hsel
    subst hm
    have := decodeMembers_last env.equalFold uploadTempMediaRespFields (fun v => v.CreatedAt)
      (str "created_at") upload_other_fields_keep_created_at pre post key (.number (some n)) f
      hf hno _ _ h2
    rw [← h1]
    exact this.1.trans (upload_store_created_at f hmem hname _ n this.2)
  · intro pre post key n hm hsel hno
    obtain ⟨f, hf, hmem, hname⟩ := selects_true _ _ _ _ hsel
    have hcode : utmr.Errcode = n := by
      have hm2 := hm
      subst hm2
      have := decodeMembers_last env.equalFold uploadTempMediaRespFields (fun v => v.Errcode)
        (str "errcode") upload_other_fields_keep_errcode pre post key (.number (some n)) f
        hf hno _ _ h2
      rw [← h1]
      exact this.1.trans (upload_store_errcode f hmem hname _ n this.2)
    refine ⟨hcode, ?_, ?_⟩
    · intro hn
      exact hzero (hcode.trans hn)
    · intro hn pre2 post2 key2 s hm2 hsel2 hno2
      have hs := hmsg pre2 post2 key2 s hm2 hsel2 hno2
      refine ⟨hs, ?_, rfl⟩
      rw [hnonzero (fun h => hn (hcode.symm.trans h)), hs]

/-- C5, at two mocked endpoints. The answer
`{"media_id":"abc123","type":"image","created_at":1234567890}` gives `MediaID`
`abc123`, `Type` `image`, `CreatedAt` 1234567890 and a nil error. The answer
`{"errcode":40004,"errmsg":"invalid media type"}` gives a failure whose text is
`invalid media type`, both through the decoded value and through the members
of the body. -/
theorem UploadTempMedia_result_of_response_witness :
    (UploadTempMedia envUploaded ⟨str "t", str "png"⟩).result =
      ({ Errcode := 0, Errmsg := [], CreatedAt := 1234567890, MediaID := str "abc123",
         Type_ := str "image" }, none) ∧
    (UploadTempMedia envInvalidMedia ⟨str "t", str "png"⟩).result =
      ({ Errcode := 40004, Errmsg := str "invalid media type", CreatedAt := 0, MediaID := [],
         Type_ := [] }, some (GoError.errorString (str "invalid media type"))) ∧
    ((UploadTempMedia envInvalidMedia ⟨str "t", str "png"⟩).result).2 =
      some (GoError.errorString (str "invalid media type")) :=
  ⟨(UploadTempMedia_result_of_response envUploaded ⟨str "t", str "png"⟩
      (str "\x7b\"media_id\":\"abc123\",\"type\":\"image\",\"created_at\":1234567890\x7d")
      { Errcode := 0, Errmsg := [], CreatedAt := 1234567890, MediaID := str "abc123",
        Type_ := str "image" } rfl (by decide)).1 rfl,
    ((UploadTempMedia_result_of_response envInvalidMedia ⟨str "t", str "png"⟩
      (str "\x7b\"errcode\":40004,\"errmsg\":\"invalid media type\"\x7d")
      { Errcode := 40004, Errmsg := str "invalid media type", CreatedAt := 0, MediaID := [],
        Type_ := [] } rfl (by decide)).2.1 (by decide)).1,
    ((((UploadTempMedia_result_of_response envInvalidMedia ⟨str "t", str "png"⟩
      (str "\x7b\"errcode\":40004,\"errmsg\":\"invalid media type\"\x7d")
      { Errcode := 40004, Errmsg := str "invalid media type", CreatedAt := 0, MediaID := [],
        Type_ := [] } rfl (by decide)).2.2
      [(str "errcode", .number (some 40004)), (str "errmsg", .string (str "invalid media type"))]
      rfl).2.2.2.2 [] [(str "errmsg", .string (str "invalid media type"))] (str "errcode") 40004
      rfl (by decide) (by decide)).2.2 (by decide)
      [(str "errcode", .number (some 40004))] [] (str "errmsg") (str "invalid media type")
      rfl (by decide) (by decide)).2.1⟩

/-- C6, evaluated at a text message: the body `SendMessage` posts for
`SendMessageReq{AccessToken: "t", Msgtype: "text", Text: {Content: "hi"},
Touser: "u"}` carries the members `image`, `link` and `miniprogrampage`, each
an empty object, although these variants are empty. -/
theorem SendMessage_text_message_body (env : Env) :
    (SendMessage env textMessage).posted.map (fun r => r.body.keys) =
      [[str "access_token", str "image", str "link", str "miniprogrampage", str "msgtype",
        str "text", str "touser"]] ∧
    (jsonMarshal textMessage).hasKey (str "image") = true ∧
    (jsonMarshal textMessage).hasKey (str "link") = true ∧
    (jsonMarshal textMessage).hasKey (str "miniprogrampage") = true ∧
    marshalMessageImg textMessage.Image = JSON.object [] ∧
    marshalMessageLink textMessage.Link = JSON.object [] ∧
    marshalMessageMiniProgramPage textMessage.Miniprogrampage = JSON.object [] := by
  rw [SendMessage_posted]
  refine ⟨by decide, by decide, by decide, by decide, rfl, rfl, rfl⟩

/-- C7 fails as stated: with the boundary of sixty `0` and an image that
contains the delimiter, the body that `UploadTempMedia` posts, read back, has
one part `media` / `temp.png` whose content is empty, not the image. -/
theorem uploadTempMedia_body_not_roundtrip :
    (UploadTempMedia envZeroBoundary ⟨str "t", imageWithDelimiter⟩).posted =
      [uploadTempMediaRequest envZeroBoundary ⟨str "t", imageWithDelimiter⟩] ∧
    (uploadTempMediaRequest envZeroBoundary ⟨str "t", imageWithDelimiter⟩).body =
      RequestBody.raw (uploadTempMediaBody envZeroBoundary ⟨str "t", imageWithDelimiter⟩) ∧
    parseMultipartForm
        (uploadTempMediaRequest envZeroBoundary ⟨str "t", imageWithDelimiter⟩).contentType
        (uploadTempMediaBody envZeroBoundary ⟨str "t", imageWithDelimiter⟩) =
      some [⟨str "media", some (str "temp.png"), []⟩] ∧
    parseMultipartForm
        (uploadTempMediaRequest envZeroBoundary ⟨str "t", imageWithDelimiter⟩).contentType
        (uploadTempMediaBody envZeroBoundary ⟨str "t", imageWithDelimiter⟩) ≠
      some [⟨str "media", some (str "temp.png"), imageWithDelimiter⟩] :=
  ⟨UploadTempMedia_posted _ _, rfl, by decide!, by decide!⟩

/-- C7, amended: for every image in which the delimiter of the request (CRLF,
two hyphens, the boundary) does not occur, the image being read with a CRLF
before it, the body that `UploadTempMedia` posts, read as
`multipart/form-data` with the boundary its content type announces, has exactly
one part; the part has form field name `media` and file name `temp.png`, and
its content is the image byte for byte. -/
theorem uploadTempMedia_body_roundtrip (env : Env) (req : UploadTempMediaReq)
    (hfree : ¬ delimiter (randomBoundary env) <:+: crlf ++ req.Image) :
    (UploadTempMedia env req).posted = [uploadTempMediaRequest env req] ∧
    (uploadTempMediaRequest env req).body = RequestBody.raw (uploadTempMediaBody env req) ∧
    parseMultipartForm (uploadTempMediaRequest env req).contentType
        (uploadTempMediaBody env req) =
      some [⟨str "media", some (str "temp.png"), req.Image⟩] :=
  ⟨UploadTempMedia_posted env req, rfl, parseMultipartForm_uploadTempMedia env req hfree⟩

/-- C7 amended, at the boundary of sixty `0` and the image `png`. -/
theorem uploadTempMedia_body_roundtrip_witness :
    ¬ delimiter (randomBoundary envZeroBoundary) <:+: crlf ++ str "png" ∧
    parseMultipartForm (uploadTempMediaRequest envZeroBoundary ⟨str "t", str "png"⟩).contentType
        (uploadTempMediaBody envZeroBoundary ⟨str "t", str "png"⟩) =
      some [⟨str "media", some (str "temp.png"), str "png"⟩] :=
  ⟨(splitOnFirst_eq_none_iff _ _).mp (by decide),
    (uploadTempMedia_body_roundtrip envZeroBoundary ⟨str "t", str "png"⟩
      ((splitOnFirst_eq_none_iff _ _).mp (by decide))).2.2⟩

/-- C8: for every access token, `SendMessage` makes one call to `http.Post`,
to the URL `https://api.weixin.qq.com/cgi-bin/message/custom/send?access_token=`
followed by the token as given, and `UploadTempMedia` makes one call, to the URL
`https://api.weixin.qq.com/cgi-bin/media/upload?access_token=` followed by the
token as given, followed by `&type=image`. The token is not escaped: the token
`a b&c=d` is inserted as it is. -/
theorem posted_urls (env : Env) :
    (∀ req : SendMessageReq,
      (SendMessage env req).posted.map (fun r => r.url) =
        [str "https://api.weixin.qq.com/cgi-bin/message/custom/send?access_token=" ++
          req.AccessToken]) ∧
    (∀ req : UploadTempMediaReq,
      (UploadTempMedia env req).posted.map (fun r => r.url) =
        [str "https://api.weixin.qq.com/cgi-bin/media/upload?access_token=" ++
          req.AccessToken ++ str "&type=image"]) ∧
    (SendMessage env { textMessage with AccessToken := str "a b&c=d" }).posted.map
        (fun r => r.url) =
      [str "https://api.weixin.qq.com/cgi-bin/message/custom/send?access_token=a b&c=d"] ∧
    (UploadTempMedia env ⟨str "a b&c=d", str "png"⟩).posted.map (fun r => r.url) =
      [str "https://api.weixin.qq.com/cgi-bin/media/upload?access_token=a b&c=d&type=image"] := by
  refine ⟨?_, ?_, ?_, ?_⟩
  · intro req
    rw [SendMessage_posted]
    rfl
  · intro req
    rw [UploadTempMedia_posted]
    rfl
  · rw [SendMessage_posted]
    decide
  · rw [UploadTempMedia_posted]
    have e : str "https://api.weixin.qq.com/cgi-bin/media/upload?access_token=" ++
        str "a b&c=d" ++ str "&type=image" =
        str "https://api.weixin.qq.com/cgi-bin/media/upload?access_token=a b&c=d&type=image" := by
      decide
    exact congrArg (fun u => [u]) e

end CustomerService
